import Mathlib

set_option autoImplicit false

/-!
Shallow embedding of the GotW #45 string-performance harness
(TestCowStrings: common-test.h, test.cpp, test.h).

Machine bytes are modelled as cells of type Option Char: a cell holding none is
an indeterminate byte (freshly allocated storage that was never written);
a cell holding some c is a byte that was written with the character c.
Pointers are indices into an explicit heap list; a freed slot becomes none,
so dereferencing a dangling pointer is visible as a failed lookup.
Operations that can hit undefined behaviour or a fatal allocation error
return Option: none models the failure.
-/

/-- Rounding of a nonzero request up to the next multiple of 4 elements, as in
the growth code of the harness: newlen = needed ? 4*((needed-1)/4 + 1) : 0. -/
def roundUp4 (needed : Nat) : Nat :=
  if needed = 0 then 0 else 4 * ((needed - 1) / 4 + 1)

/-- Growth target static_cast<size_t>(max(len*1.5, static_cast<double>(n))).
For natural len and n the truncation of max(len*1.5, n) is exactly
max (3*len/2) n with Nat division: if the integer n is the max, truncation is
the identity, and otherwise truncating len*1.5 floors it to 3*len/2. -/
def growNeeded (len n : Nat) : Nat :=
  Nat.max (3 * len / 2) n

/-- Model of memcpy(dst, src, k) on byte cells: the first k cells of src
followed by the tail of dst. -/
def memcpyInto (dst src : List (Option Char)) (k : Nat) : List (Option Char) :=
  src.take k ++ dst.drop k

/-- Shared StringBuf of common-test.h: character storage, allocated length,
occupied length, and the signed reference count (negative = unshareable). -/
structure StringBuf where
  buf : List (Option Char)
  len : Nat
  used : Nat
  refs : Int
deriving DecidableEq, Repr

/-- Default StringBuf(): buf(0), len(0), used(0), refs(1). -/
def StringBuf.mkEmpty : StringBuf :=
  { buf := [], len := 0, used := 0, refs := 1 }

/-- StringBuf::Reserve(n) of common-test.h.  When len < n it computes the grown
size, allocates a fresh buffer (incrementing String::nAllocs when the new length
is nonzero), copies the used bytes over when the old buffer is non-null, and
replaces the buffer.  The second component is the increment of nAllocs. -/
def StringBuf.Reserve (sb : StringBuf) (n : Nat) : StringBuf × Nat :=
  if sb.len < n then
    let needed := growNeeded sb.len n
    let newlen := roundUp4 needed
    let a := if newlen ≠ 0 then 1 else 0
    let newbuf0 : List (Option Char) := List.replicate newlen none
    let newbuf := if sb.buf.isEmpty then newbuf0 else memcpyInto newbuf0 sb.buf sb.used
    ({ sb with buf := newbuf, len := newlen }, a)
  else (sb, 0)

/-- StringBuf::StringBuf(const StringBuf& other, size_t n) of common-test.h.
Member initializers set buf(0), len(0), used(0), refs(1); the body then runs
Reserve(max(other.len, n)), memcpy(buf, other.buf, used) — where used is the
member of the object under construction, still 0 at this point — and finally
used = other.used.  The second component is the increment of nAllocs. -/
def StringBuf.cloneCtor (other : StringBuf) (n : Nat) : StringBuf × Nat :=
  let r := StringBuf.mkEmpty.Reserve (Nat.max other.len n)
  let sb1 := r.1
  let sb2 := { sb1 with buf := memcpyInto sb1.buf other.buf sb1.used }
  ({ sb2 with used := other.used }, r.2)

/-- StringBuf::Clear(): delete[] buf; buf = 0; len = 0; used = 0 (refs untouched). -/
def StringBuf.Clear (sb : StringBuf) : StringBuf :=
  { sb with buf := [], len := 0, used := 0 }

/-- Heap of StringBuf allocations plus the per-variant instrumentation counters
String::nAllocs and String::nCopies. -/
structure Mem where
  heap : List (Option StringBuf)
  nAllocs : Nat
  nCopies : Nat
deriving DecidableEq, Repr

def Mem.empty : Mem := { heap := [], nAllocs := 0, nCopies := 0 }

/-- Dereference a StringBuf pointer; none for a never-allocated or freed slot. -/
def Mem.get (m : Mem) (p : Nat) : Option StringBuf :=
  m.heap.getD p none

/-- Overwrite the StringBuf a live pointer refers to. -/
def Mem.setBuf (m : Mem) (p : Nat) (sb : StringBuf) : Mem :=
  { m with heap := m.heap.set p (some sb) }

/-- delete of a StringBuf pointer. -/
def Mem.free (m : Mem) (p : Nat) : Mem :=
  { m with heap := m.heap.set p none }

/-- new StringBuf allocation: the fresh pointer and the grown heap. -/
def Mem.alloc (m : Mem) (sb : StringBuf) : Nat × Mem :=
  (m.heap.length, { m with heap := m.heap ++ [some sb] })

/-- String::String() of common-test.h: data_(new StringBuf). -/
def Common.stringNew (m : Mem) : Nat × Mem :=
  m.alloc StringBuf.mkEmpty

/-- String::Length() of common-test.h: data_->used. -/
def Common.Length (m : Mem) (p : Nat) : Option Nat :=
  (m.get p).map StringBuf.used

/-- String::Append(c) of common-test.h, parameterized by the variant's
EnsureUnique: EnsureUnique(data_->used + 1); data_->buf[data_->used++] = c. -/
def Common.Append (eu : Mem → Nat → Nat → Option (Nat × Mem)) (m : Mem) (p : Nat) (c : Char) :
    Option (Nat × Mem) := do
  let sb ← m.get p
  let (q, m1) ← eu m p (sb.used + 1)
  let sb1 ← m1.get q
  pure (q, m1.setBuf q { sb1 with buf := sb1.buf.set sb1.used (some c), used := sb1.used + 1 })

/-- String::EnsureUnshareable(n) of common-test.h: EnsureUnique(n); data_->refs = -1. -/
def Common.EnsureUnshareable (eu : Mem → Nat → Nat → Option (Nat × Mem)) (m : Mem) (p : Nat)
    (n : Nat) : Option (Nat × Mem) := do
  let (q, m1) ← eu m p n
  let sb1 ← m1.get q
  pure (q, m1.setBuf q { sb1 with refs := -1 })

/-- Reading through String::operator[](n) of common-test.h:
EnsureUnshareable(data_->len); then the byte *(data_->buf + n).  The third
component of the result is the cell read; the call is none when the offset lies
outside the allocation (undefined behaviour). -/
def Common.opIndexRead (eu : Mem → Nat → Nat → Option (Nat × Mem)) (m : Mem) (p : Nat)
    (n : Nat) : Option (Nat × Mem × Option Char) := do
  let sb ← m.get p
  let (q, m1) ← Common.EnsureUnshareable eu m p sb.len
  let sb1 ← m1.get q
  if n < sb1.buf.length then pure (q, m1, sb1.buf.getD n none) else none

/-- Writing a character through the reference returned by String::operator[](n). -/
def Common.opIndexWrite (eu : Mem → Nat → Nat → Option (Nat × Mem)) (m : Mem) (p : Nat)
    (n : Nat) (c : Char) : Option (Nat × Mem) := do
  let sb ← m.get p
  let (q, m1) ← Common.EnsureUnshareable eu m p sb.len
  let sb1 ← m1.get q
  if n < sb1.buf.length then pure (q, m1.setBuf q { sb1 with buf := sb1.buf.set n (some c) })
  else none

/-- COW_Unsafe String::~String(): if (--data_->refs < 1) delete data_. -/
def COW_Unsafe.dtor (m : Mem) (p : Nat) : Option Mem := do
  let sb ← m.get p
  let refs1 := sb.refs - 1
  if refs1 < 1 then pure (m.free p)
  else pure (m.setBuf p { sb with refs := refs1 })

/-- COW_Unsafe String::String(const String&): share and increment when
other's refs > 0, otherwise deep clone; then ++nCopies. -/
def COW_Unsafe.stringCopy (m : Mem) (p : Nat) : Option (Nat × Mem) := do
  let sb ← m.get p
  if sb.refs > 0 then
    let m1 := m.setBuf p { sb with refs := sb.refs + 1 }
    pure (p, { m1 with nCopies := m1.nCopies + 1 })
  else
    let r := StringBuf.cloneCtor sb 0
    let (q, m1) := m.alloc r.1
    pure (q, { m1 with nAllocs := m1.nAllocs + r.2, nCopies := m1.nCopies + 1 })

/-- COW_Unsafe String::Clear(): detach when shared, else clear in place and
make the buffer shareable again. -/
def COW_Unsafe.Clear (m : Mem) (p : Nat) : Option (Nat × Mem) := do
  let sb ← m.get p
  if sb.refs > 1 then
    let m1 := m.setBuf p { sb with refs := sb.refs - 1 }
    let (q, m2) := m1.alloc StringBuf.mkEmpty
    pure (q, m2)
  else
    pure (p, m.setBuf p { sb.Clear with refs := 1 })

/-- COW_Unsafe String::EnsureUnique(n): clone and release one reference when
shared, else Reserve in place and reset refs to 1 (shareable again). -/
def COW_Unsafe.EnsureUnique (m : Mem) (p : Nat) (n : Nat) : Option (Nat × Mem) := do
  let sb ← m.get p
  if sb.refs > 1 then
    let r := StringBuf.cloneCtor sb n
    let m1 := { m with nAllocs := m.nAllocs + r.2 }
    let m2 := m1.setBuf p { sb with refs := sb.refs - 1 }
    let (q, m3) := m2.alloc r.1
    pure (q, m3)
  else
    let r := sb.Reserve n
    pure (p, { (m.setBuf p { r.1 with refs := 1 }) with nAllocs := m.nAllocs + r.2 })

def COW_Unsafe.Append : Mem → Nat → Char → Option (Nat × Mem) :=
  Common.Append COW_Unsafe.EnsureUnique

def COW_Unsafe.EnsureUnshareable : Mem → Nat → Nat → Option (Nat × Mem) :=
  Common.EnsureUnshareable COW_Unsafe.EnsureUnique

def COW_Unsafe.opIndexRead : Mem → Nat → Nat → Option (Nat × Mem × Option Char) :=
  Common.opIndexRead COW_Unsafe.EnsureUnique

def COW_Unsafe.opIndexWrite : Mem → Nat → Nat → Char → Option (Nat × Mem) :=
  Common.opIndexWrite COW_Unsafe.EnsureUnique

/-- IntAtomicCompare(i, v) of test.h: the sign of the comparison of the current
value of i against v (-1, 0, or 1). -/
def IntAtomicCompare (i v : Int) : Int :=
  if i < v then -1 else if i = v then 0 else 1

/-- COW_AtomicInt String::~String(): if (IntAtomicDecrement(data_->refs) < 1) delete data_. -/
def COW_AtomicInt.dtor (m : Mem) (p : Nat) : Option Mem := do
  let sb ← m.get p
  let newRefs := sb.refs - 1
  if newRefs < 1 then pure (m.free p)
  else pure (m.setBuf p { sb with refs := newRefs })

/-- COW_AtomicInt String::String(const String&): share and atomically increment
when IntAtomicCompare(other.data_->refs, 0) > 0, otherwise deep clone; ++nCopies. -/
def COW_AtomicInt.stringCopy (m : Mem) (p : Nat) : Option (Nat × Mem) := do
  let sb ← m.get p
  if IntAtomicCompare sb.refs 0 > 0 then
    let m1 := m.setBuf p { sb with refs := sb.refs + 1 }
    pure (p, { m1 with nCopies := m1.nCopies + 1 })
  else
    let r := StringBuf.cloneCtor sb 0
    let (q, m1) := m.alloc r.1
    pure (q, { m1 with nAllocs := m1.nAllocs + r.2, nCopies := m1.nCopies + 1 })

/-- COW_AtomicInt String::Clear(): decrement; when no other owner remains, clear
in place and restore refs to 1, otherwise abandon the buffer and allocate a
fresh empty one. -/
def COW_AtomicInt.Clear (m : Mem) (p : Nat) : Option (Nat × Mem) := do
  let sb ← m.get p
  let newRefs := sb.refs - 1
  if newRefs < 1 then
    pure (p, m.setBuf p { sb.Clear with refs := 1 })
  else
    let m1 := m.setBuf p { sb with refs := newRefs }
    let (q, m2) := m1.alloc StringBuf.mkEmpty
    pure (q, m2)

/-- COW_AtomicInt String::EnsureUnique(n): when shared, clone, then atomically
decrement and re-check — if the decrement reveals no other owner the fresh
clone is discarded and the original reused (the two-thread race path, dead in
this sequential embedding); else Reserve in place and reset refs to 1. -/
def COW_AtomicInt.EnsureUnique (m : Mem) (p : Nat) (n : Nat) : Option (Nat × Mem) := do
  let sb ← m.get p
  if IntAtomicCompare sb.refs 1 > 0 then
    let r := StringBuf.cloneCtor sb n
    let m1 := { m with nAllocs := m.nAllocs + r.2 }
    let (q, m2) := m1.alloc r.1
    let newRefs := sb.refs - 1
    if newRefs < 1 then
      pure (p, (m2.free q).setBuf p { sb with refs := 1 })
    else
      pure (q, m2.setBuf p { sb with refs := newRefs })
  else
    let r := sb.Reserve n
    pure (p, { (m.setBuf p { r.1 with refs := 1 }) with nAllocs := m.nAllocs + r.2 })

def COW_AtomicInt.Append : Mem → Nat → Char → Option (Nat × Mem) :=
  Common.Append COW_AtomicInt.EnsureUnique

def COW_AtomicInt.EnsureUnshareable : Mem → Nat → Nat → Option (Nat × Mem) :=
  Common.EnsureUnshareable COW_AtomicInt.EnsureUnique

def COW_AtomicInt.opIndexRead : Mem → Nat → Nat → Option (Nat × Mem × Option Char) :=
  Common.opIndexRead COW_AtomicInt.EnsureUnique

def COW_AtomicInt.opIndexWrite : Mem → Nat → Nat → Char → Option (Nat × Mem) :=
  Common.opIndexWrite COW_AtomicInt.EnsureUnique

/-- COW_CritSec String::~String().  The critical-section acquisitions of this
variant serialize the refcount updates; in this sequential embedding a Lock is
a no-op, and the remaining statements coincide with the COW_Unsafe ones. -/
def COW_CritSec.dtor (m : Mem) (p : Nat) : Option Mem := do
  let sb ← m.get p
  let refs1 := sb.refs - 1
  if refs1 < 1 then pure (m.free p)
  else pure (m.setBuf p { sb with refs := refs1 })

/-- COW_CritSec String::String(const String&), locks elided (sequential embedding). -/
def COW_CritSec.stringCopy (m : Mem) (p : Nat) : Option (Nat × Mem) := do
  let sb ← m.get p
  if sb.refs > 0 then
    let m1 := m.setBuf p { sb with refs := sb.refs + 1 }
    pure (p, { m1 with nCopies := m1.nCopies + 1 })
  else
    let r := StringBuf.cloneCtor sb 0
    let (q, m1) := m.alloc r.1
    pure (q, { m1 with nAllocs := m1.nAllocs + r.2, nCopies := m1.nCopies + 1 })

/-- COW_CritSec String::Clear(), locks elided (sequential embedding). -/
def COW_CritSec.Clear (m : Mem) (p : Nat) : Option (Nat × Mem) := do
  let sb ← m.get p
  if sb.refs > 1 then
    let m1 := m.setBuf p { sb with refs := sb.refs - 1 }
    let (q, m2) := m1.alloc StringBuf.mkEmpty
    pure (q, m2)
  else
    pure (p, m.setBuf p { sb.Clear with refs := 1 })

/-- COW_CritSec String::EnsureUnique(n), locks elided (sequential embedding). -/
def COW_CritSec.EnsureUnique (m : Mem) (p : Nat) (n : Nat) : Option (Nat × Mem) := do
  let sb ← m.get p
  if sb.refs > 1 then
    let r := StringBuf.cloneCtor sb n
    let m1 := { m with nAllocs := m.nAllocs + r.2 }
    let m2 := m1.setBuf p { sb with refs := sb.refs - 1 }
    let (q, m3) := m2.alloc r.1
    pure (q, m3)
  else
    let r := sb.Reserve n
    pure (p, { (m.setBuf p { r.1 with refs := 1 }) with nAllocs := m.nAllocs + r.2 })

def COW_CritSec.Append : Mem → Nat → Char → Option (Nat × Mem) :=
  Common.Append COW_CritSec.EnsureUnique

def COW_CritSec.EnsureUnshareable : Mem → Nat → Nat → Option (Nat × Mem) :=
  Common.EnsureUnshareable COW_CritSec.EnsureUnique

def COW_CritSec.opIndexRead : Mem → Nat → Nat → Option (Nat × Mem × Option Char) :=
  Common.opIndexRead COW_CritSec.EnsureUnique

def COW_CritSec.opIndexWrite : Mem → Nat → Nat → Char → Option (Nat × Mem) :=
  Common.opIndexWrite COW_CritSec.EnsureUnique

/-- COW_Mutex String::~String(); the mutex acquisitions are no-ops in this
sequential embedding, and the remaining statements coincide with COW_Unsafe. -/
def COW_Mutex.dtor (m : Mem) (p : Nat) : Option Mem := do
  let sb ← m.get p
  let refs1 := sb.refs - 1
  if refs1 < 1 then pure (m.free p)
  else pure (m.setBuf p { sb with refs := refs1 })

/-- COW_Mutex String::String(const String&), locks elided (sequential embedding). -/
def COW_Mutex.stringCopy (m : Mem) (p : Nat) : Option (Nat × Mem) := do
  let sb ← m.get p
  if sb.refs > 0 then
    let m1 := m.setBuf p { sb with refs := sb.refs + 1 }
    pure (p, { m1 with nCopies := m1.nCopies + 1 })
  else
    let r := StringBuf.cloneCtor sb 0
    let (q, m1) := m.alloc r.1
    pure (q, { m1 with nAllocs := m1.nAllocs + r.2, nCopies := m1.nCopies + 1 })

/-- COW_Mutex String::Clear(), locks elided (sequential embedding). -/
def COW_Mutex.Clear (m : Mem) (p : Nat) : Option (Nat × Mem) := do
  let sb ← m.get p
  if sb.refs > 1 then
    let m1 := m.setBuf p { sb with refs := sb.refs - 1 }
    let (q, m2) := m1.alloc StringBuf.mkEmpty
    pure (q, m2)
  else
    pure (p, m.setBuf p { sb.Clear with refs := 1 })

/-- COW_Mutex String::EnsureUnique(n), locks elided (sequential embedding). -/
def COW_Mutex.EnsureUnique (m : Mem) (p : Nat) (n : Nat) : Option (Nat × Mem) := do
  let sb ← m.get p
  if sb.refs > 1 then
    let r := StringBuf.cloneCtor sb n
    let m1 := { m with nAllocs := m.nAllocs + r.2 }
    let m2 := m1.setBuf p { sb with refs := sb.refs - 1 }
    let (q, m3) := m2.alloc r.1
    pure (q, m3)
  else
    let r := sb.Reserve n
    pure (p, { (m.setBuf p { r.1 with refs := 1 }) with nAllocs := m.nAllocs + r.2 })

def COW_Mutex.Append : Mem → Nat → Char → Option (Nat × Mem) :=
  Common.Append COW_Mutex.EnsureUnique

def COW_Mutex.EnsureUnshareable : Mem → Nat → Nat → Option (Nat × Mem) :=
  Common.EnsureUnshareable COW_Mutex.EnsureUnique

def COW_Mutex.opIndexRead : Mem → Nat → Nat → Option (Nat × Mem × Option Char) :=
  Common.opIndexRead COW_Mutex.EnsureUnique

def COW_Mutex.opIndexWrite : Mem → Nat → Nat → Char → Option (Nat × Mem) :=
  Common.opIndexWrite COW_Mutex.EnsureUnique

/-- COW_AtomicInt2::StringBuf: the header fields stored in the initial bytes of
the single glommed allocation. -/
structure StringBuf2 where
  len : Nat
  used : Nat
  refs : Int
deriving DecidableEq, Repr

/-- One glommed COW_AtomicInt2 allocation: the header followed by the character
region of the same new char[sizeof(StringBuf) + len] block. -/
structure Glom where
  hdr : StringBuf2
  data : List (Option Char)
deriving DecidableEq, Repr

/-- Heap of glommed allocations plus COW_AtomicInt2's nAllocs and nCopies. -/
structure Mem2 where
  heap : List (Option Glom)
  nAllocs : Nat
  nCopies : Nat
deriving DecidableEq, Repr

def Mem2.empty : Mem2 := { heap := [], nAllocs := 0, nCopies := 0 }

def Mem2.get (m : Mem2) (p : Nat) : Option Glom :=
  m.heap.getD p none

def Mem2.setBuf (m : Mem2) (p : Nat) (g : Glom) : Mem2 :=
  { m with heap := m.heap.set p (some g) }

def Mem2.free (m : Mem2) (p : Nat) : Mem2 :=
  { m with heap := m.heap.set p none }

def Mem2.alloc (m : Mem2) (g : Glom) : Nat × Mem2 :=
  (m.heap.length, { m with heap := m.heap ++ [some g] })

/-- COW_AtomicInt2 String::String(): data_ = new char[sizeof(StringBuf)];
++nAllocs; LEN = 0; USED = 0; REFS = 1. -/
def COW_AtomicInt2.stringNew (m : Mem2) : Nat × Mem2 :=
  let r := m.alloc { hdr := { len := 0, used := 0, refs := 1 }, data := [] }
  (r.1, { r.2 with nAllocs := r.2.nAllocs + 1 })

/-- COW_AtomicInt2 String::Clone(data, n): grown size from max(LEN(data)*1.5, n)
rounded to a multiple of 4; memcpy(newdata, data, sizeof(StringBuf)+USED(data))
copies the header and the used character bytes; then LEN(newdata) = newlen and
REFS(newdata) = 1.  The ++nAllocs of the allocation is accounted at call sites. -/
def COW_AtomicInt2.Clone (g : Glom) (n : Nat) : Glom :=
  let needed := growNeeded g.hdr.len n
  let newlen := roundUp4 needed
  let data0 : List (Option Char) := List.replicate newlen none
  { hdr := { len := newlen, used := g.hdr.used, refs := 1 },
    data := memcpyInto data0 g.data g.hdr.used }

/-- COW_AtomicInt2 String::~String(): if (IntAtomicDecrement(REFS(data_)) < 1) delete[] data_. -/
def COW_AtomicInt2.dtor (m : Mem2) (p : Nat) : Option Mem2 := do
  let g ← m.get p
  let newRefs := g.hdr.refs - 1
  if newRefs < 1 then pure (m.free p)
  else pure (m.setBuf p { g with hdr := { g.hdr with refs := newRefs } })

/-- COW_AtomicInt2 String::String(const String&): share and increment when
IntAtomicCompare(REFS(other.data_), 0) > 0, otherwise data_ = Clone(other.data_);
++nCopies. -/
def COW_AtomicInt2.stringCopy (m : Mem2) (p : Nat) : Option (Nat × Mem2) := do
  let g ← m.get p
  if IntAtomicCompare g.hdr.refs 0 > 0 then
    let m1 := m.setBuf p { g with hdr := { g.hdr with refs := g.hdr.refs + 1 } }
    pure (p, { m1 with nCopies := m1.nCopies + 1 })
  else
    let r := m.alloc (COW_AtomicInt2.Clone g 0)
    pure (r.1, { r.2 with nAllocs := r.2.nAllocs + 1, nCopies := r.2.nCopies + 1 })

/-- COW_AtomicInt2 String::Clear(): construct a temporary empty String, Swap
with it, and let the temporary's destructor release the old buffer. -/
def COW_AtomicInt2.Clear (m : Mem2) (p : Nat) : Option (Nat × Mem2) := do
  let r := COW_AtomicInt2.stringNew m
  let m2 ← COW_AtomicInt2.dtor r.2 p
  pure (r.1, m2)

/-- COW_AtomicInt2 String::Reserve(n): when LEN(data_) < n, clone into a larger
glommed block (++nAllocs), delete[] the old block and take ownership. -/
def COW_AtomicInt2.Reserve (m : Mem2) (p : Nat) (n : Nat) : Option (Nat × Mem2) := do
  let g ← m.get p
  if g.hdr.len < n then
    let r := m.alloc (COW_AtomicInt2.Clone g n)
    let m2 := { r.2 with nAllocs := r.2.nAllocs + 1 }
    pure (r.1, m2.free p)
  else pure (p, m)

/-- COW_AtomicInt2 String::EnsureUnique(n): when shared, Clone (++nAllocs) then
atomically decrement and re-check — discarding the clone if no other owner
remains (the two-thread race path, dead sequentially); else Reserve in place
and reset REFS to 1. -/
def COW_AtomicInt2.EnsureUnique (m : Mem2) (p : Nat) (n : Nat) : Option (Nat × Mem2) := do
  let g ← m.get p
  if IntAtomicCompare g.hdr.refs 1 > 0 then
    let r := m.alloc (COW_AtomicInt2.Clone g n)
    let m2 := { r.2 with nAllocs := r.2.nAllocs + 1 }
    let newRefs := g.hdr.refs - 1
    if newRefs < 1 then
      pure (p, (m2.free r.1).setBuf p { g with hdr := { g.hdr with refs := 1 } })
    else
      pure (r.1, m2.setBuf p { g with hdr := { g.hdr with refs := newRefs } })
  else
    let (q, m1) ← COW_AtomicInt2.Reserve m p n
    let g1 ← m1.get q
    pure (q, m1.setBuf q { g1 with hdr := { g1.hdr with refs := 1 } })

/-- COW_AtomicInt2 String::EnsureUnshareable(n): EnsureUnique(n); REFS(data_) = -1. -/
def COW_AtomicInt2.EnsureUnshareable (m : Mem2) (p : Nat) (n : Nat) : Option (Nat × Mem2) := do
  let (q, m1) ← COW_AtomicInt2.EnsureUnique m p n
  let g1 ← m1.get q
  pure (q, m1.setBuf q { g1 with hdr := { g1.hdr with refs := -1 } })

/-- COW_AtomicInt2 String::Append(c): EnsureUnique(USED(data_)+1);
BUF(data_)[USED(data_)++] = c. -/
def COW_AtomicInt2.Append (m : Mem2) (p : Nat) (c : Char) : Option (Nat × Mem2) := do
  let g ← m.get p
  let (q, m1) ← COW_AtomicInt2.EnsureUnique m p (g.hdr.used + 1)
  let g1 ← m1.get q
  let g2 : Glom := { hdr := { g1.hdr with used := g1.hdr.used + 1 },
                     data := g1.data.set g1.hdr.used (some c) }
  pure (q, m1.setBuf q g2)

/-- COW_AtomicInt2 String::Length(): USED(data_). -/
def COW_AtomicInt2.Length (m : Mem2) (p : Nat) : Option Nat :=
  (m.get p).map (fun g => g.hdr.used)

/-- Reading through COW_AtomicInt2 String::operator[](n):
EnsureUnshareable(LEN(data_)); *(BUF(data_)+n). -/
def COW_AtomicInt2.opIndexRead (m : Mem2) (p : Nat) (n : Nat) :
    Option (Nat × Mem2 × Option Char) := do
  let g ← m.get p
  let (q, m1) ← COW_AtomicInt2.EnsureUnshareable m p g.hdr.len
  let g1 ← m1.get q
  if n < g1.data.length then pure (q, m1, g1.data.getD n none) else none

/-- Writing a character through the reference returned by COW_AtomicInt2
String::operator[](n). -/
def COW_AtomicInt2.opIndexWrite (m : Mem2) (p : Nat) (n : Nat) (c : Char) :
    Option (Nat × Mem2) := do
  let g ← m.get p
  let (q, m1) ← COW_AtomicInt2.EnsureUnshareable m p g.hdr.len
  let g1 ← m1.get q
  if n < g1.data.length then pure (q, m1.setBuf q { g1 with data := g1.data.set n (some c) })
  else none

/-- Plain::String of test.cpp: the eager-copy baseline, no sharing. -/
structure Plain.String where
  buf_ : List (Option Char)
  len_ : Nat
  used_ : Nat
deriving DecidableEq, Repr

/-- Plain::String::String(): buf_(0), len_(0), used_(0). -/
def Plain.stringNew : Plain.String :=
  { buf_ := [], len_ := 0, used_ := 0 }

/-- Plain::String::Reserve(n); the second component is the increment of nAllocs. -/
def Plain.Reserve (s : Plain.String) (n : Nat) : Plain.String × Nat :=
  if s.len_ < n then
    let needed := growNeeded s.len_ n
    let newlen := roundUp4 needed
    let a := if newlen ≠ 0 then 1 else 0
    let newbuf0 : List (Option Char) := List.replicate newlen none
    let newbuf := if s.buf_.isEmpty then newbuf0 else memcpyInto newbuf0 s.buf_ s.used_
    ({ buf_ := newbuf, len_ := newlen, used_ := s.used_ }, a)
  else (s, 0)

/-- Plain::String::String(const String& other): allocate other.len_ bytes,
memcpy the used_ bytes, ++nCopies, ++nAllocs.  The second component is the
pair of counter increments (nCopies, nAllocs). -/
def Plain.stringCopy (s : Plain.String) : Plain.String × Nat × Nat :=
  ({ buf_ := memcpyInto (List.replicate s.len_ none) s.buf_ s.used_,
     len_ := s.len_, used_ := s.used_ }, 1, 1)

/-- Plain::String::Append(c): Reserve(used_+1); buf_[used_++] = c. -/
def Plain.Append (s : Plain.String) (c : Char) : Plain.String × Nat :=
  let r := Plain.Reserve s (s.used_ + 1)
  let s1 := r.1
  ({ s1 with buf_ := s1.buf_.set s1.used_ (some c), used_ := s1.used_ + 1 }, r.2)

/-- Plain::String::Length(): used_. -/
def Plain.Length (s : Plain.String) : Nat := s.used_

/-- Reading through Plain::String::operator[](n): *(buf_+n), no checks at all;
none models the undefined dereference outside the allocation. -/
def Plain.opIndexRead (s : Plain.String) (n : Nat) : Option (Option Char) :=
  if n < s.buf_.length then some (s.buf_.getD n none) else none

/-- FastArena::size: the fixed number of blocks of the arena. -/
def FastArena.size : Nat := 100

/-- FastArena of test.h: chunk is the rounded n_, marks the per-block long
markers sitting at the head of each (n_ + sizeof(long))-byte block, nonzero
while the block is in use.  sizeof(long) is 4 on the Win32 target.  The
character payloads of the blocks live in the same raw buffer; this model keeps
the markers and leaves the payload bytes to the clients that own them. -/
structure FastArena where
  chunk : Nat
  marks : List Int
deriving DecidableEq, Repr

/-- FastArena::FastArena(name, n): n_( n ? 4*((n-1)/4+1) : 4 ), all markers 0. -/
def FastArena.init (n : Nat) : FastArena :=
  { chunk := if n ≠ 0 then 4 * ((n - 1) / 4 + 1) else 4,
    marks := List.replicate FastArena.size 0 }

/-- Scan of the while loop in FastArena::Allocate: the first index whose
marker is 0, if any. -/
def FastArena.scanFree : List Int → Option Nat
  | [] => none
  | v :: rest => if v = 0 then some 0 else (FastArena.scanFree rest).map Nat.succ

/-- FastArena::Allocate(n): throws bad_alloc (none) when n exceeds the chunk
size or no free block remains; otherwise atomically increments the chosen
block's marker and returns the payload pointer p + sizeof(long), here the byte
offset from buf_. -/
def FastArena.Allocate (fa : FastArena) (n : Nat) : Option (Nat × FastArena) :=
  if n > fa.chunk then none
  else
    match FastArena.scanFree fa.marks with
    | none => none
    | some i =>
      some (i * (fa.chunk + 4) + 4,
        { fa with marks := fa.marks.set i (fa.marks.getD i 0 + 1) })

/-- Decrement of the long at byte offset b from buf_, the write
*(long*)(((char*)p)-sizeof(long)) performs.  When b is the start of block i it
decrements that block's marker; any other in-bounds offset lands inside a
block's payload region, which this marker-level model does not track, so the
markers are unchanged there. -/
def FastArena.decLongAt (fa : FastArena) (b : Int) : FastArena :=
  let stride : Int := (fa.chunk : Int) + 4
  if b % stride = 0 ∧ 0 ≤ b ∧ b < stride * FastArena.size then
    let i := (b / stride).toNat
    { fa with marks := fa.marks.set i (fa.marks.getD i 0 - 1) }
  else fa

/-- FastArena::Deallocate(p): a no-op on a null pointer; throws bad_alloc
(none) when p < buf_ or p > buf_ + (n_+sizeof(long))*size; otherwise
atomically decrements the long sitting sizeof(long) bytes before p.
Pointers are byte offsets from buf_ (negative = before the arena). -/
def FastArena.Deallocate (fa : FastArena) (p : Option Int) : Option FastArena :=
  match p with
  | none => some fa
  | some a =>
    if a < 0 ∨ a > ((fa.chunk : Int) + 4) * FastArena.size then none
    else some (fa.decLongAt (a - 4))

/-- Plain_FastAlloc::String of test.cpp: the eager-copy variant backed by a
FastArena("Plain_FastAlloc") with the default 3000-byte chunks.  addr is the
arena pointer buf_ (none = null); the character cells of the owned block are
kept alongside.  The nCopies/nAllocs counters of this variant are not modelled:
no claim mentions them. -/
structure Plain_FastAlloc.String where
  buf_ : List (Option Char)
  len_ : Nat
  used_ : Nat
  addr : Option Int
deriving DecidableEq, Repr

/-- Plain_FastAlloc::String::String(): buf_(0), len_(0), used_(0). -/
def Plain_FastAlloc.stringNew : Plain_FastAlloc.String :=
  { buf_ := [], len_ := 0, used_ := 0, addr := none }

/-- Plain_FastAlloc::String::Reserve(n), threading the arena: newbuf comes from
fa.Allocate(newlen) (which can throw), the used_ bytes are copied over when
buf_ is non-null, and the old block is released with fa.Deallocate(buf_). -/
def Plain_FastAlloc.Reserve (st : FastArena × Plain_FastAlloc.String) (n : Nat) :
    Option (FastArena × Plain_FastAlloc.String) :=
  if st.2.len_ < n then
    match (if roundUp4 (growNeeded st.2.len_ n) ≠ 0 then
            (st.1.Allocate (roundUp4 (growNeeded st.2.len_ n))).map
              (fun r => ((some (r.1 : Int) : Option Int), r.2))
           else some ((none : Option Int), st.1)) with
    | none => none
    | some af =>
      match (af.2.Deallocate st.2.addr) with
      | none => none
      | some fa2 =>
        some (fa2,
          { buf_ := if st.2.buf_.isEmpty then
                      List.replicate (roundUp4 (growNeeded st.2.len_ n)) none
                    else memcpyInto (List.replicate (roundUp4 (growNeeded st.2.len_ n)) none)
                      st.2.buf_ st.2.used_,
            len_ := roundUp4 (growNeeded st.2.len_ n), used_ := st.2.used_, addr := af.1 })
  else some st

/-- Plain_FastAlloc::String::Append(c): Reserve(used_+1); buf_[used_++] = c. -/
def Plain_FastAlloc.Append (st : FastArena × Plain_FastAlloc.String) (c : Char) :
    Option (FastArena × Plain_FastAlloc.String) := do
  let st1 ← Plain_FastAlloc.Reserve st (st.2.used_ + 1)
  let s1 := st1.2
  pure (st1.1, { s1 with buf_ := s1.buf_.set s1.used_ (some c), used_ := s1.used_ + 1 })

/-- Plain_FastAlloc::String::Length(): used_. -/
def Plain_FastAlloc.Length (s : Plain_FastAlloc.String) : Nat := s.used_

/-- Reading through Plain_FastAlloc::String::operator[](n): *(buf_+n), no checks. -/
def Plain_FastAlloc.opIndexRead (s : Plain_FastAlloc.String) (n : Nat) : Option (Option Char) :=
  if n < s.buf_.length then some (s.buf_.getD n none) else none

/-- Modelled from the spec: the standard-library-backed variant's _s member is a
std::string, an external collaborator whose code is not part of this repository;
per the spec it is a plain character sequence, += appends one character,
size() is the length and operator[] yields the character at the index. -/
structure StdString.String where
  s : List Char
deriving DecidableEq, Repr

def StdString.stringNew : StdString.String := { s := [] }

def StdString.Append (st : StdString.String) (c : Char) : StdString.String :=
  { s := st.s ++ [c] }

def StdString.Length (st : StdString.String) : Nat := st.s.length

def StdString.opIndexRead (st : StdString.String) (n : Nat) : Option Char :=
  st.s.get? n

/-- Modelled from the spec: the platform-string-backed variant's _s member is an
ATL CStringA, an external collaborator whose code is not part of this
repository; per the spec it is a plain character sequence with the same
Append/Length/GetAt observable behaviour. -/
structure AtlString.String where
  s : List Char
deriving DecidableEq, Repr

def AtlString.stringNew : AtlString.String := { s := [] }

def AtlString.Append (st : AtlString.String) (c : Char) : AtlString.String :=
  { s := st.s ++ [c] }

def AtlString.Length (st : AtlString.String) : Nat := st.s.length

def AtlString.opIndexRead (st : AtlString.String) (n : Nat) : Option Char :=
  st.s.get? n

/-- Builder for the content round-trip property: default-construct a String on
the empty heap and Append the characters of cs one at a time. -/
def Common.build (app : Mem → Nat → Char → Option (Nat × Mem)) (cs : List Char) :
    Option (Nat × Mem) :=
  cs.foldl (fun acc c => acc.bind fun pm => app pm.2 pm.1 c) (some (Common.stringNew Mem.empty))

def COW_Unsafe.build : List Char → Option (Nat × Mem) := Common.build COW_Unsafe.Append

def COW_AtomicInt.build : List Char → Option (Nat × Mem) := Common.build COW_AtomicInt.Append

def COW_CritSec.build : List Char → Option (Nat × Mem) := Common.build COW_CritSec.Append

def COW_Mutex.build : List Char → Option (Nat × Mem) := Common.build COW_Mutex.Append

def COW_AtomicInt2.build (cs : List Char) : Option (Nat × Mem2) :=
  cs.foldl (fun acc c => acc.bind fun pm => COW_AtomicInt2.Append pm.2 pm.1 c)
    (some (COW_AtomicInt2.stringNew Mem2.empty))

def Plain.build (cs : List Char) : Plain.String :=
  cs.foldl (fun s c => (Plain.Append s c).1) Plain.stringNew

/-- Plain_FastAlloc build, threading the variant's static
FastArena("Plain_FastAlloc") with the default n = 3000. -/
def Plain_FastAlloc.build (cs : List Char) : Option (FastArena × Plain_FastAlloc.String) :=
  cs.foldl (fun acc c => acc.bind fun st => Plain_FastAlloc.Append st c)
    (some (FastArena.init 3000, Plain_FastAlloc.stringNew))

def StdString.build (cs : List Char) : StdString.String :=
  cs.foldl StdString.Append StdString.stringNew

def AtlString.build (cs : List Char) : AtlString.String :=
  cs.foldl AtlString.Append AtlString.stringNew

/-! Invariants, build harnesses and concrete states used by the proofs. -/

/-- Well-formedness of a reachable StringBuf: the model list is exactly the
allocation and the occupied region fits inside it. -/
def StringBuf.WF (sb : StringBuf) : Prop :=
  sb.buf.length = sb.len ∧ sb.used ≤ sb.len

/-- State after the unshared path of EnsureUnique(n): Reserve in place and
reset refs to 1, accounting the possible nAllocs increment. -/
def euInPlace (m : Mem) (p : Nat) (sb : StringBuf) (n : Nat) : Mem :=
  { (m.setBuf p { (sb.Reserve n).1 with refs := 1 }) with nAllocs := m.nAllocs + (sb.Reserve n).2 }

/-- Characterization shared by the EnsureUnique of every two-allocation COW
variant: on a buffer that is not shared (refs ≤ 1 — exclusive or unshareable)
it keeps the pointer, Reserves in place and resets refs to 1. -/
def EUUnsharedLe (eu : Mem → Nat → Nat → Option (Nat × Mem)) : Prop :=
  ∀ m p sb n, m.get p = some sb → sb.refs ≤ 1 → eu m p n = some (p, euInPlace m p sb n)

/-- Memory after Append(c) on an unshared buffer: Reserve in place, write the
character at offset used, bump used, refs reset to 1. -/
def appendResult (m : Mem) (p : Nat) (sb : StringBuf) (c : Char) : Mem :=
  { (m.setBuf p { buf := (sb.Reserve (sb.used + 1)).1.buf.set sb.used (some c),
                  len := (sb.Reserve (sb.used + 1)).1.len,
                  used := sb.used + 1, refs := 1 }) with
      nAllocs := m.nAllocs + (sb.Reserve (sb.used + 1)).2 }

/-- Invariant carried by the content round-trip builds: the single handle owns
an exclusive well-formed buffer whose occupied cells are exactly the characters
appended so far. -/
def GoodState (pm : Nat × Mem) (cs : List Char) : Prop :=
  ∃ sb, pm.2.get pm.1 = some sb ∧ sb.refs = 1 ∧ sb.WF ∧ sb.used = cs.length ∧
    sb.buf.take sb.used = cs.map some

/-- Invariant of the COW_AtomicInt2 content round-trip build. -/
def GoodState2 (pm : Nat × Mem2) (cs : List Char) : Prop :=
  ∃ g, pm.2.get pm.1 = some g ∧ g.hdr.refs = 1 ∧ g.data.length = g.hdr.len ∧
    g.hdr.used ≤ g.hdr.len ∧ g.hdr.used = cs.length ∧ g.data.take g.hdr.used = cs.map some

/-- Invariant of the Plain content round-trip build. -/
def PlainGood (s : Plain.String) (cs : List Char) : Prop :=
  s.buf_.length = s.len_ ∧ s.used_ ≤ s.len_ ∧ s.used_ = cs.length ∧
    s.buf_.take s.used_ = cs.map some

/-- Invariant of the Plain_FastAlloc content round-trip build (on the String
component; the arena only decides allocation success). -/
def PFGood (s : Plain_FastAlloc.String) (cs : List Char) : Prop :=
  s.buf_.length = s.len_ ∧ s.used_ ≤ s.len_ ∧ s.used_ = cs.length ∧
    s.buf_.take s.used_ = cs.map some

/-- The operation script of the observable-divergence scenario, on the
two-allocation atomic variant: build "X", copy it, Append 'a' through the
copy (forcing a deep clone of the shared buffer), then read the copy's first
character. -/
def COW_AtomicInt.demo : Option (Option Char) := do
  let pm := Common.stringNew Mem.empty
  let (p1, m1) ← COW_AtomicInt.Append pm.2 pm.1 'X'
  let (p2, m2) ← COW_AtomicInt.stringCopy m1 p1
  let (p3, m3) ← COW_AtomicInt.Append m2 p2 'a'
  let r ← COW_AtomicInt.opIndexRead m3 p3 0
  pure r.2.2

/-- The same operation script on the single-allocation variant. -/
def COW_AtomicInt2.demo : Option (Option Char) := do
  let pm := COW_AtomicInt2.stringNew Mem2.empty
  let (p1, m1) ← COW_AtomicInt2.Append pm.2 pm.1 'X'
  let (p2, m2) ← COW_AtomicInt2.stringCopy m1 p1
  let (p3, m3) ← COW_AtomicInt2.Append m2 p2 'a'
  let r ← COW_AtomicInt2.opIndexRead m3 p3 0
  pure r.2.2

/-- COW_Unsafe run for the unshareability-persistence counterexample: build
"X", make the buffer unshareable through operator[], Append 'a' (an
intervening operation that is neither Clear nor a reconstruction), then
copy-construct.  The result records the owner pointer after the Append, the
pointer the copy attached to, and the final memory. -/
def COW_Unsafe.c3run : Option (Nat × Nat × Mem) := do
  let pm := Common.stringNew Mem.empty
  let (p1, m1) ← COW_Unsafe.Append pm.2 pm.1 'X'
  let (p2, m2, _) ← COW_Unsafe.opIndexRead m1 p1 0
  let (p3, m3) ← COW_Unsafe.Append m2 p2 'a'
  let (q, m4) ← COW_Unsafe.stringCopy m3 p3
  pure (p3, q, m4)

/-- Concrete one-byte shareable heap used by several witnesses: a single live
StringBuf holding "X" with refcount 1. -/
def exShared : Mem :=
  { heap := [some { buf := [some 'X', none, none, none], len := 4, used := 1, refs := 1 }],
    nAllocs := 0, nCopies := 0 }

/-- Concrete arena used by the allocator witnesses: chunk size 8, all 100
blocks free. -/
def exArena : FastArena := FastArena.init 8

/-- Concrete arena with block 0 in use, for the deallocation witness. -/
def exArena1 : FastArena :=
  { chunk := 8, marks := (List.replicate FastArena.size (0 : Int)).set 0 1 }

/-- Concrete two-owner heap for the isolation witness: one StringBuf "X" with
refcount 2 (two String handles attached). -/
def exShared2 : Mem :=
  { heap := [some { buf := [some 'X', none, none, none], len := 4, used := 1, refs := 2 }],
    nAllocs := 0, nCopies := 0 }

/-- Concrete unshareable one-byte heap for the witness. -/
def exUnsh : Mem :=
  { heap := [some { buf := [some 'X', none, none, none], len := 4, used := 1, refs := -1 }],
    nAllocs := 0, nCopies := 0 }

/-! Lemmas about the embedding, followed by the claim theorems. -/

theorem roundUp4_ge (n : Nat) : n ≤ roundUp4 n := by
  unfold roundUp4
  split
  · omega
  · have h := Nat.div_add_mod (n - 1) 4
    have h2 := Nat.mod_lt (n - 1) (show 0 < 4 by omega)
    omega

theorem growNeeded_ge (len n : Nat) : n ≤ growNeeded len n := by
  unfold growNeeded
  exact Nat.le_max_right _ _

theorem memcpyInto_length {dst src : List (Option Char)} {k : Nat}
    (hs : k ≤ src.length) (hd : k ≤ dst.length) :
    (memcpyInto dst src k).length = dst.length := by
  unfold memcpyInto
  simp [List.length_take, List.length_drop]
  omega

theorem memcpyInto_getD_lt {dst src : List (Option Char)} {k i : Nat}
    (hs : k ≤ src.length) (hi : i < k) :
    (memcpyInto dst src k).getD i none = src.getD i none := by
  unfold memcpyInto
  have hlen : i < (src.take k).length := by simp [List.length_take]; omega
  simp only [List.getD_eq_getElem?_getD]
  rw [List.getElem?_append_left hlen, List.getElem?_take_of_lt hi]

theorem memcpyInto_take {dst src : List (Option Char)} {k : Nat}
    (hs : k ≤ src.length) :
    (memcpyInto dst src k).take k = src.take k := by
  unfold memcpyInto
  have hlen : (src.take k).length = k := by simp [List.length_take]; omega
  exact List.take_left' hlen

theorem take_succ_set {α : Type} (l : List α) (k : Nat) (a : α) (h : k < l.length) :
    (l.set k a).take (k + 1) = l.take k ++ [a] := by
  induction l generalizing k with
  | nil => simp at h
  | cons x xs ih =>
    cases k with
    | zero => simp
    | succ k =>
      simp only [List.set, List.take, List.cons_append]
      rw [ih k (by simpa using h)]

theorem Mem.get_lt_length {m : Mem} {p : Nat} {sb : StringBuf} (h : m.get p = some sb) :
    p < m.heap.length := by
  by_contra hlt
  push_neg at hlt
  rw [Mem.get, List.getD_eq_getElem?_getD, List.getElem?_eq_none hlt] at h
  simp at h

theorem Mem.get_setBuf_self {m : Mem} {p : Nat} (sb : StringBuf) (h : p < m.heap.length) :
    (m.setBuf p sb).get p = some sb := by
  simp [Mem.get, Mem.setBuf, List.getD_eq_getElem?_getD, List.getElem?_set_self h]

theorem Mem.get_setBuf_ne {m : Mem} {p q : Nat} (sb : StringBuf) (h : p ≠ q) :
    (m.setBuf p sb).get q = m.get q := by
  simp [Mem.get, Mem.setBuf, List.getD_eq_getElem?_getD, List.getElem?_set_ne h]

theorem Mem.get_alloc_new (m : Mem) (sb : StringBuf) :
    (m.alloc sb).2.get (m.alloc sb).1 = some sb := by
  simp [Mem.get, Mem.alloc, List.getD_eq_getElem?_getD, List.getElem?_concat_length]

theorem Mem.get_alloc_old {m : Mem} {q : Nat} (sb : StringBuf) (h : q < m.heap.length) :
    (m.alloc sb).2.get q = m.get q := by
  simp [Mem.get, Mem.alloc, List.getD_eq_getElem?_getD, List.getElem?_append_left h]

theorem Mem2.get2_lt_length {m : Mem2} {p : Nat} {g : Glom} (h : m.get p = some g) :
    p < m.heap.length := by
  by_contra hlt
  push_neg at hlt
  rw [Mem2.get, List.getD_eq_getElem?_getD, List.getElem?_eq_none hlt] at h
  simp at h

theorem Mem2.get2_setBuf_self {m : Mem2} {p : Nat} (g : Glom) (h : p < m.heap.length) :
    (m.setBuf p g).get p = some g := by
  simp [Mem2.get, Mem2.setBuf, List.getD_eq_getElem?_getD, List.getElem?_set_self h]

theorem Mem2.get2_setBuf_ne {m : Mem2} {p q : Nat} (g : Glom) (h : p ≠ q) :
    (m.setBuf p g).get q = m.get q := by
  simp [Mem2.get, Mem2.setBuf, List.getD_eq_getElem?_getD, List.getElem?_set_ne h]

theorem Mem2.get2_alloc_new (m : Mem2) (g : Glom) :
    (m.alloc g).2.get (m.alloc g).1 = some g := by
  simp [Mem2.get, Mem2.alloc, List.getD_eq_getElem?_getD, List.getElem?_concat_length]

theorem Mem2.get2_alloc_old {m : Mem2} {q : Nat} (g : Glom) (h : q < m.heap.length) :
    (m.alloc g).2.get q = m.get q := by
  simp [Mem2.get, Mem2.alloc, List.getD_eq_getElem?_getD, List.getElem?_append_left h]

theorem Reserve_used (sb : StringBuf) (n : Nat) : (sb.Reserve n).1.used = sb.used := by
  unfold StringBuf.Reserve
  split <;> simp

theorem Reserve_refs (sb : StringBuf) (n : Nat) : (sb.Reserve n).1.refs = sb.refs := by
  unfold StringBuf.Reserve
  split <;> simp

theorem Reserve_noop {sb : StringBuf} {n : Nat} (h : ¬ sb.len < n) : sb.Reserve n = (sb, 0) := by
  unfold StringBuf.Reserve
  simp [h]

theorem Reserve_len_ge (sb : StringBuf) (n : Nat) : n ≤ (sb.Reserve n).1.len := by
  unfold StringBuf.Reserve
  split
  · have h1 := growNeeded_ge sb.len n
    have h2 := roundUp4_ge (growNeeded sb.len n)
    simpa using Nat.le_trans h1 h2
  · simp; omega

theorem Reserve_wf {sb : StringBuf} (hwf : sb.WF) (n : Nat) : ((sb.Reserve n).1).WF := by
  obtain ⟨hlen, hused⟩ := hwf
  unfold StringBuf.Reserve StringBuf.WF
  split
  · simp only
    constructor
    · split
      · next hemp =>
        simp
      · next hemp =>
        have hku : sb.used ≤ sb.buf.length := by omega
        have h1 := growNeeded_ge sb.len n
        have h2 := roundUp4_ge (growNeeded sb.len n)
        rw [memcpyInto_length hku (by simp; omega)]
        simp
    · have h1 := growNeeded_ge sb.len n
      have h2 := roundUp4_ge (growNeeded sb.len n)
      omega
  · exact ⟨hlen, hused⟩

theorem Reserve_take_used {sb : StringBuf} (hwf : sb.WF) (n : Nat) :
    (sb.Reserve n).1.buf.take sb.used = sb.buf.take sb.used := by
  obtain ⟨hlen, hused⟩ := hwf
  unfold StringBuf.Reserve
  split
  · simp only
    split
    · next hemp =>
      have : sb.buf = [] := by simpa [List.isEmpty_iff] using hemp
      have hu0 : sb.used = 0 := by rw [this] at hlen; simp at hlen; omega
      simp [this, hu0]
    · next hemp =>
      exact memcpyInto_take (by omega)
  · rfl

theorem COW_Unsafe.euUnsharedLeU : EUUnsharedLe COW_Unsafe.EnsureUnique := by
  intro m p sb n hget hr
  simp [COW_Unsafe.EnsureUnique, hget, euInPlace, show ¬ sb.refs > 1 by omega]

theorem COW_AtomicInt.euUnsharedLeA : EUUnsharedLe COW_AtomicInt.EnsureUnique := by
  intro m p sb n hget hr
  have hcmp : ¬ IntAtomicCompare sb.refs 1 > 0 := by
    unfold IntAtomicCompare
    split
    · omega
    · split <;> omega
  simp [COW_AtomicInt.EnsureUnique, hget, euInPlace, hcmp]

theorem COW_CritSec.euUnsharedLeC : EUUnsharedLe COW_CritSec.EnsureUnique := by
  intro m p sb n hget hr
  simp [COW_CritSec.EnsureUnique, hget, euInPlace, show ¬ sb.refs > 1 by omega]

theorem COW_Mutex.euUnsharedLeM : EUUnsharedLe COW_Mutex.EnsureUnique := by
  intro m p sb n hget hr
  simp [COW_Mutex.EnsureUnique, hget, euInPlace, show ¬ sb.refs > 1 by omega]

theorem Mem.setBuf_setBuf (m : Mem) (p : Nat) (a b : StringBuf) :
    (m.setBuf p a).setBuf p b = m.setBuf p b := by
  simp [Mem.setBuf, List.set_set]

theorem Mem.setBuf_length (m : Mem) (p : Nat) (sb : StringBuf) :
    (m.setBuf p sb).heap.length = m.heap.length := by
  simp [Mem.setBuf]

/-- Generic shape of EnsureUnshareable(n) on an unshared (refs ≤ 1) buffer:
same pointer, Reserve in place, refs forced to the -1 sentinel. -/
theorem EnsureUnshareable_unshared {eu : Mem → Nat → Nat → Option (Nat × Mem)}
    (heu : EUUnsharedLe eu) {m : Mem} {p : Nat} {sb : StringBuf}
    (hget : m.get p = some sb) (hr : sb.refs ≤ 1) (n : Nat) :
    Common.EnsureUnshareable eu m p n =
      some (p, { (m.setBuf p { (sb.Reserve n).1 with refs := -1 }) with
                   nAllocs := m.nAllocs + (sb.Reserve n).2 }) := by
  have hlt : p < m.heap.length := Mem.get_lt_length hget
  have hlt2 : p < (euInPlace m p sb n).heap.length := by
    simp [euInPlace, Mem.setBuf_length, hlt]
  rw [Common.EnsureUnshareable]
  rw [heu m p sb n hget hr]
  have hget2 : (euInPlace m p sb n).get p = some { (sb.Reserve n).1 with refs := 1 } := by
    have : (euInPlace m p sb n).get p
        = ((m.setBuf p { (sb.Reserve n).1 with refs := 1 }).get p) := by
      simp [euInPlace, Mem.get]
    rw [this]
    exact Mem.get_setBuf_self _ hlt
  simp only [Option.bind_eq_bind, Option.some_bind, hget2]
  have hset : (euInPlace m p sb n).setBuf p { (sb.Reserve n).1 with refs := -1 }
      = { (m.setBuf p { (sb.Reserve n).1 with refs := -1 }) with
            nAllocs := m.nAllocs + (sb.Reserve n).2 } := by
    simp [euInPlace, Mem.setBuf, List.set_set]
  simp [hset]

/-- Generic shape of a read through operator[](n) on an unshared buffer:
no bounds check against used, the cell at offset n of the same buffer is
returned and the only state change is the refs = -1 sentinel. -/
theorem opIndexRead_unshared {eu : Mem → Nat → Nat → Option (Nat × Mem)}
    (heu : EUUnsharedLe eu) {m : Mem} {p : Nat} {sb : StringBuf}
    (hget : m.get p = some sb) (hwf : sb.buf.length = sb.len) (hr : sb.refs ≤ 1)
    {n : Nat} (hn : n < sb.len) :
    Common.opIndexRead eu m p n =
      some (p, m.setBuf p { sb with refs := -1 }, sb.buf.getD n none) := by
  have hres : sb.Reserve sb.len = (sb, 0) := Reserve_noop (by omega)
  have hlt : p < m.heap.length := Mem.get_lt_length hget
  have hunsh := EnsureUnshareable_unshared heu hget hr sb.len
  rw [hres] at hunsh
  have hmem : ({ (m.setBuf p { sb with refs := -1 }) with nAllocs := m.nAllocs + (sb, 0).2 } : Mem)
      = m.setBuf p { sb with refs := -1 } := by
    simp [Mem.setBuf]
  rw [hmem] at hunsh
  have hget2 : (m.setBuf p { sb with refs := -1 }).get p = some { sb with refs := -1 } :=
    Mem.get_setBuf_self _ hlt
  have hlen : n < sb.buf.length := by omega
  rw [Common.opIndexRead]
  simp only [hget, Option.some_bind, Option.bind_eq_bind, hunsh, hget2]
  simp [hlen]

theorem Append_unshared {eu : Mem → Nat → Nat → Option (Nat × Mem)}
    (heu : EUUnsharedLe eu) {m : Mem} {p : Nat} {sb : StringBuf}
    (hget : m.get p = some sb) (hr : sb.refs ≤ 1) (c : Char) :
    Common.Append eu m p c = some (p, appendResult m p sb c) := by
  have hlt : p < m.heap.length := Mem.get_lt_length hget
  have heun := heu m p sb (sb.used + 1) hget hr
  have hget2 : (euInPlace m p sb (sb.used + 1)).get p
      = some { (sb.Reserve (sb.used + 1)).1 with refs := 1 } := by
    have h1 : (euInPlace m p sb (sb.used + 1)).get p
        = (m.setBuf p { (sb.Reserve (sb.used + 1)).1 with refs := 1 }).get p := by
      simp [euInPlace, Mem.get]
    rw [h1]
    exact Mem.get_setBuf_self _ hlt
  rw [Common.Append]
  simp only [hget, Option.some_bind, Option.bind_eq_bind, heun, hget2]
  simp [euInPlace, appendResult, Mem.setBuf, List.set_set, Reserve_used]

theorem GoodState_append {eu : Mem → Nat → Nat → Option (Nat × Mem)}
    (heu : EUUnsharedLe eu) {pm : Nat × Mem} {cs : List Char} {c : Char}
    (h : GoodState pm cs) :
    ∃ m', Common.Append eu pm.2 pm.1 c = some (pm.1, m') ∧
      GoodState (pm.1, m') (cs ++ [c]) := by
  obtain ⟨sb, hget, hrefs, hwf, husd, htake⟩ := h
  obtain ⟨hbl, hul⟩ := hwf
  refine ⟨appendResult pm.2 pm.1 sb c, Append_unshared heu hget (by omega) c, ?_⟩
  have hwf' : ((sb.Reserve (sb.used + 1)).1).WF := Reserve_wf ⟨hbl, hul⟩ _
  have hlen' : sb.used + 1 ≤ (sb.Reserve (sb.used + 1)).1.len := Reserve_len_ge sb _
  have htk : (sb.Reserve (sb.used + 1)).1.buf.take sb.used = sb.buf.take sb.used :=
    Reserve_take_used ⟨hbl, hul⟩ _
  have hlt : pm.1 < pm.2.heap.length := Mem.get_lt_length hget
  have hsblt : sb.used < (sb.Reserve (sb.used + 1)).1.buf.length := by
    rw [hwf'.1]
    omega
  refine ⟨{ buf := (sb.Reserve (sb.used + 1)).1.buf.set sb.used (some c),
            len := (sb.Reserve (sb.used + 1)).1.len,
            used := sb.used + 1, refs := 1 }, ?_, rfl, ?_, ?_, ?_⟩
  · exact Mem.get_setBuf_self _ hlt
  · constructor
    · simp [List.length_set, hwf'.1]
    · simpa using hlen'
  · simp [husd]
  · simp only
    rw [take_succ_set _ _ _ hsblt, htk, htake]
    simp

theorem build_loop {eu : Mem → Nat → Nat → Option (Nat × Mem)}
    (heu : EUUnsharedLe eu) :
    ∀ (cs pre : List Char) (pm : Nat × Mem), GoodState pm pre →
      ∃ pm', cs.foldl (fun acc c => acc.bind fun x => Common.Append eu x.2 x.1 c) (some pm)
          = some pm' ∧ GoodState pm' (pre ++ cs) := by
  intro cs
  induction cs with
  | nil =>
    intro pre pm h
    exact ⟨pm, rfl, by simpa using h⟩
  | cons c cs ih =>
    intro pre pm h
    obtain ⟨m', happ, hgood⟩ := GoodState_append heu (c := c) h
    obtain ⟨pm', hfold, hgood'⟩ := ih (pre ++ [c]) (pm.1, m') hgood
    refine ⟨pm', ?_, by simpa [List.append_assoc] using hgood'⟩
    simp only [List.foldl_cons, Option.some_bind, happ]
    exact hfold

theorem GoodState_new : GoodState (Common.stringNew Mem.empty) [] := by
  refine ⟨StringBuf.mkEmpty, ?_, rfl, ⟨rfl, Nat.le_refl 0⟩, rfl, rfl⟩
  decide

theorem build_good {eu : Mem → Nat → Nat → Option (Nat × Mem)}
    (heu : EUUnsharedLe eu) (cs : List Char) :
    ∃ pm, Common.build (Common.Append eu) cs = some pm ∧ GoodState pm cs := by
  obtain ⟨pm', hfold, hgood⟩ := build_loop heu cs [] (Common.stringNew Mem.empty) GoodState_new
  exact ⟨pm', hfold, by simpa using hgood⟩

theorem GoodState_read {eu : Mem → Nat → Nat → Option (Nat × Mem)}
    (heu : EUUnsharedLe eu) {pm : Nat × Mem} {cs : List Char}
    (h : GoodState pm cs) {i : Nat} {c : Char} (hic : cs.get? i = some c) :
    ∃ m', Common.opIndexRead eu pm.2 pm.1 i = some (pm.1, m', some c) := by
  obtain ⟨sb, hget, hrefs, ⟨hbl, hul⟩, husd, htake⟩ := h
  have hi : i < cs.length := by
    by_contra hge
    push_neg at hge
    rw [List.get?_eq_getElem?, List.getElem?_eq_none hge] at hic
    simp at hic
  have hiu : i < sb.used := by omega
  have hcell : sb.buf.getD i none = some c := by
    have h1 : (sb.buf.take sb.used).getD i none = sb.buf.getD i none := by
      simp only [List.getD_eq_getElem?_getD]
      rw [List.getElem?_take_of_lt hiu]
    rw [← h1, htake]
    simp only [List.getD_eq_getElem?_getD, List.getElem?_map]
    rw [List.get?_eq_getElem?] at hic
    rw [hic]
    rfl
  have hread := opIndexRead_unshared heu hget hbl (by omega) (n := i) (by omega)
  exact ⟨_, by rw [hread, hcell]⟩

theorem GoodState_length {pm : Nat × Mem} {cs : List Char} (h : GoodState pm cs) :
    Common.Length pm.2 pm.1 = some cs.length := by
  obtain ⟨sb, hget, _, _, husd, _⟩ := h
  simp [Common.Length, hget, husd]

theorem le_three_halves (len : Nat) : len ≤ 3 * len / 2 := by
  rw [Nat.le_div_iff_mul_le (by omega)]
  omega

theorem growNeeded_ge_len (len n : Nat) : len ≤ growNeeded len n :=
  Nat.le_trans (le_three_halves len) (Nat.le_max_left _ _)

theorem Mem2.get_free_ne {m : Mem2} {p q : Nat} (h : p ≠ q) : (m.free p).get q = m.get q := by
  simp [Mem2.get, Mem2.free, List.getD_eq_getElem?_getD, List.getElem?_set_ne h]

theorem Mem2.setBuf2_length (m : Mem2) (p : Nat) (g : Glom) :
    (m.setBuf p g).heap.length = m.heap.length := by
  simp [Mem2.setBuf]

theorem Clone_hdr (g : Glom) (n : Nat) :
    (COW_AtomicInt2.Clone g n).hdr
      = { len := roundUp4 (growNeeded g.hdr.len n), used := g.hdr.used, refs := 1 } := rfl

theorem Clone_len_ge (g : Glom) (n : Nat) :
    n ≤ (COW_AtomicInt2.Clone g n).hdr.len ∧ g.hdr.len ≤ (COW_AtomicInt2.Clone g n).hdr.len := by
  have h1 := growNeeded_ge g.hdr.len n
  have h2 := growNeeded_ge_len g.hdr.len n
  have h3 := roundUp4_ge (growNeeded g.hdr.len n)
  exact ⟨by simp [COW_AtomicInt2.Clone]; omega, by simp [COW_AtomicInt2.Clone]; omega⟩

theorem Clone_data_length {g : Glom} (hwf : g.hdr.used ≤ g.data.length)
    (hul : g.hdr.used ≤ g.hdr.len) (n : Nat) :
    (COW_AtomicInt2.Clone g n).data.length = (COW_AtomicInt2.Clone g n).hdr.len := by
  have h2 := growNeeded_ge_len g.hdr.len n
  have h3 := roundUp4_ge (growNeeded g.hdr.len n)
  show (memcpyInto (List.replicate (roundUp4 (growNeeded g.hdr.len n)) none)
      g.data g.hdr.used).length = _
  rw [memcpyInto_length hwf (by simp; omega)]
  simp [COW_AtomicInt2.Clone]

theorem Clone_take {g : Glom} (hwf : g.hdr.used ≤ g.data.length) (n : Nat) :
    (COW_AtomicInt2.Clone g n).data.take g.hdr.used = g.data.take g.hdr.used := by
  exact memcpyInto_take hwf

/-- Behaviour of COW_AtomicInt2 EnsureUnique(n) on an unshared (refs ≤ 1)
buffer: refs is reset to 1 and the buffer has been grown to hold at least n
bytes without disturbing the occupied cells; the pointer changes exactly when a
Reserve reallocation was needed. -/
theorem EnsureUnique2_unshared {m : Mem2} {p : Nat} {g : Glom} {n : Nat}
    (hget : m.get p = some g) (hr : g.hdr.refs ≤ 1)
    (hdl : g.data.length = g.hdr.len) (hul : g.hdr.used ≤ g.hdr.len) :
    ∃ q m1 g1, COW_AtomicInt2.EnsureUnique m p n = some (q, m1) ∧
      m1.get q = some g1 ∧ m1.heap.length = m.heap.length + (if g.hdr.len < n then 1 else 0) ∧
      g1.hdr.refs = 1 ∧ g1.hdr.used = g.hdr.used ∧ g1.data.length = g1.hdr.len ∧
      n ≤ g1.hdr.len ∧ g.hdr.len ≤ g1.hdr.len ∧
      g1.data.take g.hdr.used = g.data.take g.hdr.used := by
  have hcmp : ¬ IntAtomicCompare g.hdr.refs 1 > 0 := by
    unfold IntAtomicCompare
    split
    · omega
    · split <;> omega
  have hlt : p < m.heap.length := Mem2.get2_lt_length hget
  by_cases hlen : g.hdr.len < n
  · -- Reserve reallocates through Clone
    have hused : g.hdr.used ≤ g.data.length := by omega
    have hne : p ≠ m.heap.length := by omega
    have hres : COW_AtomicInt2.Reserve m p n =
        some (m.heap.length,
          ({ (m.alloc (COW_AtomicInt2.Clone g n)).2 with
              nAllocs := (m.alloc (COW_AtomicInt2.Clone g n)).2.nAllocs + 1 }).free p) := by
      rw [COW_AtomicInt2.Reserve]
      simp [hget, hlen, Mem2.alloc]
    have hget1 :
        (({ (m.alloc (COW_AtomicInt2.Clone g n)).2 with
            nAllocs := (m.alloc (COW_AtomicInt2.Clone g n)).2.nAllocs + 1 }).free p).get
          m.heap.length = some (COW_AtomicInt2.Clone g n) := by
      rw [Mem2.get_free_ne hne]
      exact Mem2.get2_alloc_new m _
    rw [COW_AtomicInt2.EnsureUnique]
    simp only [hget, Option.some_bind, Option.bind_eq_bind, hcmp, if_false, hres, hget1]
    refine ⟨m.heap.length, _,
      { COW_AtomicInt2.Clone g n with
          hdr := { (COW_AtomicInt2.Clone g n).hdr with refs := 1 } }, rfl, ?_, ?_, rfl, rfl,
      ?_, ?_, ?_, ?_⟩
    · apply Mem2.get2_setBuf_self
      simp [Mem2.free, Mem2.alloc]
    · simp [Mem2.setBuf2_length, Mem2.free, Mem2.alloc, hlen]
    · simpa using Clone_data_length hused hul n
    · have hc1 := Clone_len_ge g n
      simp only
      omega
    · have hc1 := Clone_len_ge g n
      simp only
      omega
    · simpa using Clone_take hused n
  · -- Reserve is a no-op
    have hres : COW_AtomicInt2.Reserve m p n = some (p, m) := by
      rw [COW_AtomicInt2.Reserve]
      simp [hget, hlen]
    rw [COW_AtomicInt2.EnsureUnique]
    simp only [hget, Option.some_bind, Option.bind_eq_bind, hcmp, if_false, hres]
    refine ⟨p, _, { g with hdr := { g.hdr with refs := 1 } }, rfl, ?_, ?_, rfl, rfl,
      ?_, ?_, ?_, ?_⟩
    · exact Mem2.get2_setBuf_self _ hlt
    · simp [Mem2.setBuf2_length, hlen]
    · simpa using hdl
    · simp only
      omega
    · simp only
      omega
    · simp

/-- Reading through COW_AtomicInt2 operator[](n) on an unshared buffer: same
pointer, refs forced to -1, the cell at offset n returned with no check against
used. -/
theorem opIndexRead2_unshared {m : Mem2} {p : Nat} {g : Glom}
    (hget : m.get p = some g) (hr : g.hdr.refs ≤ 1)
    (hdl : g.data.length = g.hdr.len) {n : Nat} (hn : n < g.hdr.len) :
    COW_AtomicInt2.opIndexRead m p n =
      some (p, m.setBuf p { g with hdr := { g.hdr with refs := -1 } }, g.data.getD n none) := by
  have hlt : p < m.heap.length := Mem2.get2_lt_length hget
  have hcmp : ¬ IntAtomicCompare g.hdr.refs 1 > 0 := by
    unfold IntAtomicCompare
    split
    · omega
    · split <;> omega
  have hres : COW_AtomicInt2.Reserve m p g.hdr.len = some (p, m) := by
    rw [COW_AtomicInt2.Reserve]
    simp [hget]
  have heu : COW_AtomicInt2.EnsureUnique m p g.hdr.len =
      some (p, m.setBuf p { g with hdr := { g.hdr with refs := 1 } }) := by
    rw [COW_AtomicInt2.EnsureUnique]
    simp only [hget, Option.some_bind, Option.bind_eq_bind, hcmp, if_false, hres]
    rfl
  have hget1 : (m.setBuf p { g with hdr := { g.hdr with refs := 1 } }).get p
      = some { g with hdr := { g.hdr with refs := 1 } } := Mem2.get2_setBuf_self _ hlt
  have hunsh : COW_AtomicInt2.EnsureUnshareable m p g.hdr.len =
      some (p, m.setBuf p { g with hdr := { g.hdr with refs := -1 } }) := by
    rw [COW_AtomicInt2.EnsureUnshareable]
    simp only [heu, Option.some_bind, Option.bind_eq_bind, hget1]
    simp [Mem2.setBuf, List.set_set]
  have hget2 : (m.setBuf p { g with hdr := { g.hdr with refs := -1 } }).get p
      = some { g with hdr := { g.hdr with refs := -1 } } := Mem2.get2_setBuf_self _ hlt
  rw [COW_AtomicInt2.opIndexRead]
  simp only [hget, Option.some_bind, Option.bind_eq_bind, hunsh, hget2]
  have hlen : n < g.data.length := by omega
  simp [hlen]

theorem GoodState2_append {pm : Nat × Mem2} {cs : List Char} {c : Char}
    (h : GoodState2 pm cs) :
    ∃ q m', COW_AtomicInt2.Append pm.2 pm.1 c = some (q, m') ∧
      GoodState2 (q, m') (cs ++ [c]) := by
  obtain ⟨g, hget, hrefs, hdl, hul, husd, htake⟩ := h
  obtain ⟨q, m1, g1, heu, hget1, hhlen, hrefs1, husd1, hdl1, hnle, hlele, htake1⟩ :=
    EnsureUnique2_unshared hget (by omega) hdl hul (n := g.hdr.used + 1)
  have hqlt : q < m1.heap.length := Mem2.get2_lt_length hget1
  have hsetlt : g1.hdr.used < g1.data.length := by omega
  rw [COW_AtomicInt2.Append]
  simp only [hget, Option.some_bind, Option.bind_eq_bind, heu, hget1]
  refine ⟨q, _, rfl, ?_⟩
  refine ⟨{ hdr := { g1.hdr with used := g1.hdr.used + 1 },
            data := g1.data.set g1.hdr.used (some c) }, ?_, hrefs1, ?_, ?_, ?_, ?_⟩
  · exact Mem2.get2_setBuf_self _ hqlt
  · simp [List.length_set, hdl1]
  · simp only
    omega
  · simp only [List.length_append, List.length_cons, List.length_nil]
    omega
  · simp only
    rw [take_succ_set _ _ _ hsetlt, husd1, htake1, htake]
    simp

theorem build_loop2 :
    ∀ (cs pre : List Char) (pm : Nat × Mem2), GoodState2 pm pre →
      ∃ pm', cs.foldl (fun acc c => acc.bind fun x => COW_AtomicInt2.Append x.2 x.1 c) (some pm)
          = some pm' ∧ GoodState2 pm' (pre ++ cs) := by
  intro cs
  induction cs with
  | nil =>
    intro pre pm h
    exact ⟨pm, rfl, by simpa using h⟩
  | cons c cs ih =>
    intro pre pm h
    obtain ⟨q, m', happ, hgood⟩ := GoodState2_append (c := c) h
    obtain ⟨pm', hfold, hgood'⟩ := ih (pre ++ [c]) (q, m') hgood
    refine ⟨pm', ?_, by simpa [List.append_assoc] using hgood'⟩
    simp only [List.foldl_cons, Option.some_bind, happ]
    exact hfold

theorem GoodState2_new : GoodState2 (COW_AtomicInt2.stringNew Mem2.empty) [] := by
  refine ⟨{ hdr := { len := 0, used := 0, refs := 1 }, data := [] }, ?_, rfl, rfl,
    Nat.le_refl 0, rfl, rfl⟩
  decide

theorem build2_good (cs : List Char) :
    ∃ pm, COW_AtomicInt2.build cs = some pm ∧ GoodState2 pm cs := by
  obtain ⟨pm', hfold, hgood⟩ := build_loop2 cs [] (COW_AtomicInt2.stringNew Mem2.empty)
    GoodState2_new
  exact ⟨pm', hfold, by simpa using hgood⟩

theorem GoodState2_read {pm : Nat × Mem2} {cs : List Char}
    (h : GoodState2 pm cs) {i : Nat} {c : Char} (hic : cs.get? i = some c) :
    ∃ m', COW_AtomicInt2.opIndexRead pm.2 pm.1 i = some (pm.1, m', some c) := by
  obtain ⟨g, hget, hrefs, hdl, hul, husd, htake⟩ := h
  have hi : i < cs.length := by
    by_contra hge
    push_neg at hge
    rw [List.get?_eq_getElem?, List.getElem?_eq_none hge] at hic
    simp at hic
  have hiu : i < g.hdr.used := by omega
  have hcell : g.data.getD i none = some c := by
    have h1 : (g.data.take g.hdr.used).getD i none = g.data.getD i none := by
      simp only [List.getD_eq_getElem?_getD]
      rw [List.getElem?_take_of_lt hiu]
    rw [← h1, htake]
    simp only [List.getD_eq_getElem?_getD, List.getElem?_map]
    rw [List.get?_eq_getElem?] at hic
    rw [hic]
    rfl
  have hread := opIndexRead2_unshared hget (by omega) hdl (n := i) (by omega)
  exact ⟨_, by rw [hread, hcell]⟩

theorem GoodState2_length {pm : Nat × Mem2} {cs : List Char} (h : GoodState2 pm cs) :
    COW_AtomicInt2.Length pm.2 pm.1 = some cs.length := by
  obtain ⟨g, hget, _, _, _, husd, _⟩ := h
  simp [COW_AtomicInt2.Length, hget, husd]

theorem PlainReserve_used (s : Plain.String) (n : Nat) :
    (Plain.Reserve s n).1.used_ = s.used_ := by
  unfold Plain.Reserve
  split <;> simp

theorem PlainReserve_len_ge (s : Plain.String) (n : Nat) : n ≤ (Plain.Reserve s n).1.len_ := by
  unfold Plain.Reserve
  split
  · have h1 := growNeeded_ge s.len_ n
    have h2 := roundUp4_ge (growNeeded s.len_ n)
    simpa using Nat.le_trans h1 h2
  · simp
    omega

theorem PlainReserve_wf {s : Plain.String} (hwf : s.buf_.length = s.len_ ∧ s.used_ ≤ s.len_)
    (n : Nat) : (Plain.Reserve s n).1.buf_.length = (Plain.Reserve s n).1.len_ ∧
      (Plain.Reserve s n).1.used_ ≤ (Plain.Reserve s n).1.len_ := by
  obtain ⟨hlen, hused⟩ := hwf
  unfold Plain.Reserve
  split
  · simp only
    constructor
    · split
      · next hemp =>
        simp
      · next hemp =>
        have hku : s.used_ ≤ s.buf_.length := by omega
        have h1 := growNeeded_ge s.len_ n
        have h2 := roundUp4_ge (growNeeded s.len_ n)
        rw [memcpyInto_length hku (by simp; omega)]
        simp
    · have h1 := growNeeded_ge s.len_ n
      have h2 := roundUp4_ge (growNeeded s.len_ n)
      omega
  · exact ⟨hlen, hused⟩

theorem PlainReserve_take {s : Plain.String} (hwf : s.buf_.length = s.len_ ∧ s.used_ ≤ s.len_)
    (n : Nat) : (Plain.Reserve s n).1.buf_.take s.used_ = s.buf_.take s.used_ := by
  obtain ⟨hlen, hused⟩ := hwf
  unfold Plain.Reserve
  split
  · simp only
    split
    · next hemp =>
      have : s.buf_ = [] := by simpa [List.isEmpty_iff] using hemp
      have hu0 : s.used_ = 0 := by rw [this] at hlen; simp at hlen; omega
      simp [this, hu0]
    · next hemp =>
      exact memcpyInto_take (by omega)
  · rfl

theorem PlainGood_append {s : Plain.String} {cs : List Char} {c : Char}
    (h : PlainGood s cs) : PlainGood (Plain.Append s c).1 (cs ++ [c]) := by
  obtain ⟨hbl, hul, husd, htake⟩ := h
  have hwf' := PlainReserve_wf ⟨hbl, hul⟩ (s.used_ + 1)
  have hlen' := PlainReserve_len_ge s (s.used_ + 1)
  have husd' := PlainReserve_used s (s.used_ + 1)
  have htk := PlainReserve_take ⟨hbl, hul⟩ (s.used_ + 1)
  have hsblt : s.used_ < (Plain.Reserve s (s.used_ + 1)).1.buf_.length := by
    rw [hwf'.1]
    omega
  unfold Plain.Append
  refine ⟨?_, ?_, ?_, ?_⟩
  · simp [List.length_set, hwf'.1]
  · simp only
    omega
  · simp only [List.length_append, List.length_cons, List.length_nil]
    omega
  · simp only [husd']
    rw [take_succ_set _ _ _ hsblt, htk, htake]
    simp

theorem Plain_build_loop :
    ∀ (cs pre : List Char) (s : Plain.String), PlainGood s pre →
      PlainGood (cs.foldl (fun s c => (Plain.Append s c).1) s) (pre ++ cs) := by
  intro cs
  induction cs with
  | nil =>
    intro pre s h
    simpa using h
  | cons c cs ih =>
    intro pre s h
    have h1 := PlainGood_append (c := c) h
    have := ih (pre ++ [c]) (Plain.Append s c).1 h1
    simpa [List.append_assoc] using this

theorem Plain_build_good (cs : List Char) : PlainGood (Plain.build cs) cs := by
  have h0 : PlainGood Plain.stringNew [] := ⟨rfl, Nat.le_refl 0, rfl, rfl⟩
  simpa using Plain_build_loop cs [] Plain.stringNew h0

theorem PlainGood_read {s : Plain.String} {cs : List Char} (h : PlainGood s cs)
    {i : Nat} {c : Char} (hic : cs.get? i = some c) :
    Plain.opIndexRead s i = some (some c) := by
  obtain ⟨hbl, hul, husd, htake⟩ := h
  have hi : i < cs.length := by
    by_contra hge
    push_neg at hge
    rw [List.get?_eq_getElem?, List.getElem?_eq_none hge] at hic
    simp at hic
  have hiu : i < s.used_ := by omega
  have hcell : s.buf_.getD i none = some c := by
    have h1 : (s.buf_.take s.used_).getD i none = s.buf_.getD i none := by
      simp only [List.getD_eq_getElem?_getD]
      rw [List.getElem?_take_of_lt hiu]
    rw [← h1, htake]
    simp only [List.getD_eq_getElem?_getD, List.getElem?_map]
    rw [List.get?_eq_getElem?] at hic
    rw [hic]
    rfl
  unfold Plain.opIndexRead
  have hlt : i < s.buf_.length := by omega
  rw [if_pos hlt, hcell]

theorem PFReserve_spec {st : FastArena × Plain_FastAlloc.String} {n : Nat}
    {st1 : FastArena × Plain_FastAlloc.String}
    (hwf : st.2.buf_.length = st.2.len_ ∧ st.2.used_ ≤ st.2.len_)
    (hres : Plain_FastAlloc.Reserve st n = some st1) :
    st1.2.buf_.length = st1.2.len_ ∧ st1.2.used_ = st.2.used_ ∧ n ≤ st1.2.len_ ∧
      st1.2.buf_.take st.2.used_ = st.2.buf_.take st.2.used_ := by
  obtain ⟨hlen, hused⟩ := hwf
  unfold Plain_FastAlloc.Reserve at hres
  by_cases hlt : st.2.len_ < n
  · rw [if_pos hlt] at hres
    have h1 := growNeeded_ge st.2.len_ n
    have h2 := roundUp4_ge (growNeeded st.2.len_ n)
    split at hres
    · cases hres
    · split at hres
      · cases hres
      · cases hres
        have hbwf : st.2.used_ ≤ st.2.buf_.length := by omega
        refine ⟨?_, rfl, by simp; omega, ?_⟩
        · simp only
          split
          · next hemp =>
            simp
          · next hemp =>
            rw [memcpyInto_length hbwf (by simp; omega)]
            simp
        · simp only
          split
          · next hemp =>
            have hb : st.2.buf_ = [] := by simpa [List.isEmpty_iff] using hemp
            have hu0 : st.2.used_ = 0 := by rw [hb] at hlen; simp at hlen; omega
            simp [hb, hu0]
          · next hemp =>
            exact memcpyInto_take (by omega)
  · rw [if_neg hlt] at hres
    cases hres
    exact ⟨hlen, rfl, by omega, rfl⟩

theorem PFGood_append {st : FastArena × Plain_FastAlloc.String} {cs : List Char} {c : Char}
    {st' : FastArena × Plain_FastAlloc.String}
    (h : PFGood st.2 cs) (happ : Plain_FastAlloc.Append st c = some st') :
    PFGood st'.2 (cs ++ [c]) := by
  obtain ⟨hbl, hul, husd, htake⟩ := h
  rw [Plain_FastAlloc.Append] at happ
  cases hres : Plain_FastAlloc.Reserve st (st.2.used_ + 1) with
  | none =>
    rw [hres] at happ
    simp at happ
  | some st1 =>
    rw [hres] at happ
    simp only [Option.bind_eq_bind, Option.some_bind, Option.pure_def, Option.some_inj] at happ
    obtain ⟨hb1, hu1, hn1, ht1⟩ := PFReserve_spec ⟨hbl, hul⟩ hres
    subst happ
    have hsblt : st1.2.used_ < st1.2.buf_.length := by omega
    refine ⟨?_, ?_, ?_, ?_⟩
    · simp [List.length_set, hb1]
    · simp only
      omega
    · simp only [List.length_append, List.length_cons, List.length_nil]
      omega
    · simp only [hu1]
      rw [take_succ_set _ _ _ (by omega), ht1, htake]
      simp

theorem foldl_bind_none {α : Type} (g : α → Char → Option α) :
    ∀ cs : List Char, cs.foldl (fun acc c => acc.bind fun x => g x c) none = none := by
  intro cs
  induction cs with
  | nil => rfl
  | cons c cs ih => simpa using ih

theorem PF_build_loop :
    ∀ (cs pre : List Char) (st : FastArena × Plain_FastAlloc.String), PFGood st.2 pre →
      ∀ st', cs.foldl (fun acc c => acc.bind fun x => Plain_FastAlloc.Append x c) (some st)
          = some st' → PFGood st'.2 (pre ++ cs) := by
  intro cs
  induction cs with
  | nil =>
    intro pre st h st' hfold
    cases hfold
    simpa using h
  | cons c cs ih =>
    intro pre st h st' hfold
    simp only [List.foldl_cons, Option.some_bind] at hfold
    cases happ : Plain_FastAlloc.Append st c with
    | none =>
      rw [happ] at hfold
      rw [foldl_bind_none] at hfold
      cases hfold
    | some st1 =>
      rw [happ] at hfold
      have h1 := PFGood_append h happ
      have := ih (pre ++ [c]) st1 h1 st' hfold
      simpa [List.append_assoc] using this

theorem PF_build_good {cs : List Char} {st : FastArena × Plain_FastAlloc.String}
    (h : Plain_FastAlloc.build cs = some st) : PFGood st.2 cs := by
  have h0 : PFGood Plain_FastAlloc.stringNew [] := ⟨rfl, Nat.le_refl 0, rfl, rfl⟩
  have := PF_build_loop cs [] (FastArena.init 3000, Plain_FastAlloc.stringNew) h0 st h
  simpa using this

theorem PFGood_read {s : Plain_FastAlloc.String} {cs : List Char} (h : PFGood s cs)
    {i : Nat} {c : Char} (hic : cs.get? i = some c) :
    Plain_FastAlloc.opIndexRead s i = some (some c) := by
  obtain ⟨hbl, hul, husd, htake⟩ := h
  have hi : i < cs.length := by
    by_contra hge
    push_neg at hge
    rw [List.get?_eq_getElem?, List.getElem?_eq_none hge] at hic
    simp at hic
  have hiu : i < s.used_ := by omega
  have hcell : s.buf_.getD i none = some c := by
    have h1 : (s.buf_.take s.used_).getD i none = s.buf_.getD i none := by
      simp only [List.getD_eq_getElem?_getD]
      rw [List.getElem?_take_of_lt hiu]
    rw [← h1, htake]
    simp only [List.getD_eq_getElem?_getD, List.getElem?_map]
    rw [List.get?_eq_getElem?] at hic
    rw [hic]
    rfl
  unfold Plain_FastAlloc.opIndexRead
  have hlt : i < s.buf_.length := by omega
  rw [if_pos hlt, hcell]

theorem StdString_build_chars : ∀ (cs pre : List Char),
    (cs.foldl StdString.Append { s := pre } : StdString.String).s = pre ++ cs := by
  intro cs
  induction cs with
  | nil => intro pre; simp
  | cons c cs ih =>
    intro pre
    simp only [List.foldl_cons, StdString.Append]
    rw [ih (pre ++ [c])]
    simp

theorem AtlString_build_chars : ∀ (cs pre : List Char),
    (cs.foldl AtlString.Append { s := pre } : AtlString.String).s = pre ++ cs := by
  intro cs
  induction cs with
  | nil => intro pre; simp
  | cons c cs ih =>
    intro pre
    simp only [List.foldl_cons, AtlString.Append]
    rw [ih (pre ++ [c])]
    simp

theorem memcpyInto_zero (dst src : List (Option Char)) : memcpyInto dst src 0 = dst := by
  simp [memcpyInto]

theorem cloneCtor_used (other : StringBuf) (n : Nat) :
    (StringBuf.cloneCtor other n).1.used = other.used := rfl

theorem cloneCtor_refs (other : StringBuf) (n : Nat) :
    (StringBuf.cloneCtor other n).1.refs = 1 := by
  show ((StringBuf.mkEmpty.Reserve (Nat.max other.len n)).1).refs = 1
  rw [Reserve_refs]
  rfl

theorem cloneCtor_len (other : StringBuf) (n : Nat) :
    (StringBuf.cloneCtor other n).1.len = roundUp4 (Nat.max other.len n) := by
  show ((StringBuf.mkEmpty.Reserve (Nat.max other.len n)).1).len = _
  unfold StringBuf.Reserve
  by_cases h : Nat.max other.len n = 0
  · rw [h]
    simp [StringBuf.mkEmpty, roundUp4]
  · have hpos : StringBuf.mkEmpty.len < Nat.max other.len n := by
      show 0 < Nat.max other.len n
      omega
    rw [if_pos hpos]
    simp [StringBuf.mkEmpty, growNeeded]

theorem cloneCtor_buf_length (other : StringBuf) (n : Nat) :
    (StringBuf.cloneCtor other n).1.buf.length = (StringBuf.cloneCtor other n).1.len := by
  have hwf := Reserve_wf (show StringBuf.mkEmpty.WF from ⟨rfl, Nat.le_refl 0⟩)
    (Nat.max other.len n)
  have hu : (StringBuf.mkEmpty.Reserve (Nat.max other.len n)).1.used = 0 :=
    Reserve_used _ _
  show (memcpyInto (StringBuf.mkEmpty.Reserve (Nat.max other.len n)).1.buf other.buf
      (StringBuf.mkEmpty.Reserve (Nat.max other.len n)).1.used).length = _
  rw [hu, memcpyInto_zero]
  exact hwf.1

theorem cloneCtor_len_ge (other : StringBuf) (n : Nat) :
    Nat.max other.len n ≤ (StringBuf.cloneCtor other n).1.len := by
  rw [cloneCtor_len]
  exact roundUp4_ge _

theorem COW_CritSec.eu_eqC : COW_CritSec.EnsureUnique = COW_Unsafe.EnsureUnique := rfl

theorem COW_CritSec.copy_eqC : COW_CritSec.stringCopy = COW_Unsafe.stringCopy := rfl

theorem COW_CritSec.append_eqC : COW_CritSec.Append = COW_Unsafe.Append := rfl

theorem COW_CritSec.read_eqC : COW_CritSec.opIndexRead = COW_Unsafe.opIndexRead := rfl

theorem COW_CritSec.write_eqC : COW_CritSec.opIndexWrite = COW_Unsafe.opIndexWrite := rfl

theorem COW_CritSec.clear_eqC : COW_CritSec.Clear = COW_Unsafe.Clear := rfl

theorem COW_Mutex.eu_eqM : COW_Mutex.EnsureUnique = COW_Unsafe.EnsureUnique := rfl

theorem COW_Mutex.copy_eqM : COW_Mutex.stringCopy = COW_Unsafe.stringCopy := rfl

theorem COW_Mutex.append_eqM : COW_Mutex.Append = COW_Unsafe.Append := rfl

theorem COW_Mutex.read_eqM : COW_Mutex.opIndexRead = COW_Unsafe.opIndexRead := rfl

theorem COW_Mutex.write_eqM : COW_Mutex.opIndexWrite = COW_Unsafe.opIndexWrite := rfl

theorem COW_Mutex.clear_eqM : COW_Mutex.Clear = COW_Unsafe.Clear := rfl

/-- COW_Unsafe EnsureUnique on a shared buffer: clone, release one reference
from the old buffer, take ownership of the fresh one. -/
theorem COW_Unsafe.eu_sharedU {m : Mem} {p : Nat} {sb : StringBuf} (n : Nat)
    (hget : m.get p = some sb) (hr : 1 < sb.refs) :
    COW_Unsafe.EnsureUnique m p n =
      some ((({ m with nAllocs := m.nAllocs + (StringBuf.cloneCtor sb n).2 }).setBuf p
        { sb with refs := sb.refs - 1 }).alloc (StringBuf.cloneCtor sb n).1) := by
  rw [COW_Unsafe.EnsureUnique]
  simp [hget, hr]

/-- COW_AtomicInt EnsureUnique on a shared buffer: in the sequential embedding
the decrement still sees another owner, so the fresh clone is kept. -/
theorem COW_AtomicInt.eu_sharedA {m : Mem} {p : Nat} {sb : StringBuf} (n : Nat)
    (hget : m.get p = some sb) (hr : 1 < sb.refs) :
    COW_AtomicInt.EnsureUnique m p n =
      some ((({ m with nAllocs := m.nAllocs + (StringBuf.cloneCtor sb n).2 }).alloc
          (StringBuf.cloneCtor sb n).1).1,
        (({ m with nAllocs := m.nAllocs + (StringBuf.cloneCtor sb n).2 }).alloc
          (StringBuf.cloneCtor sb n).1).2.setBuf p { sb with refs := sb.refs - 1 }) := by
  have hcmp : IntAtomicCompare sb.refs 1 > 0 := by
    unfold IntAtomicCompare
    split
    · omega
    · split <;> omega
  have hnd : ¬ sb.refs - 1 < 1 := by omega
  rw [COW_AtomicInt.EnsureUnique]
  simp [hget, hcmp, hnd]

/-- A mutation through Append on a shared COW_Unsafe buffer leaves the shared
buffer's content untouched: only its refcount drops by one. -/
theorem COW_Unsafe.append_sharedU {m : Mem} {p : Nat} {sb : StringBuf}
    (hget : m.get p = some sb) (hr : 1 < sb.refs) (c : Char) :
    ∃ q m', COW_Unsafe.Append m p c = some (q, m') ∧ p ≠ q ∧
      m'.get p = some { sb with refs := sb.refs - 1 } := by
  have hlt : p < m.heap.length := Mem.get_lt_length hget
  have heu := COW_Unsafe.eu_sharedU (sb.used + 1) hget hr
  set m1 : Mem := { m with nAllocs := m.nAllocs + (StringBuf.cloneCtor sb (sb.used + 1)).2 }
    with hm1
  set m2 : Mem := m1.setBuf p { sb with refs := sb.refs - 1 } with hm2
  have hq : (m2.alloc (StringBuf.cloneCtor sb (sb.used + 1)).1).1 = m.heap.length := by
    simp [Mem.alloc, hm2, Mem.setBuf, hm1]
  have hne : p ≠ (m2.alloc (StringBuf.cloneCtor sb (sb.used + 1)).1).1 := by
    rw [hq]
    omega
  have hgetq := Mem.get_alloc_new m2 (StringBuf.cloneCtor sb (sb.used + 1)).1
  rw [show COW_Unsafe.Append = Common.Append COW_Unsafe.EnsureUnique from rfl, Common.Append]
  simp only [hget, Option.some_bind, Option.bind_eq_bind, heu, hgetq]
  refine ⟨_, _, rfl, hne, ?_⟩
  rw [Mem.get_setBuf_ne _ (fun hcontra => hne hcontra.symm)]
  have hplt2 : p < m2.heap.length := by
    simp [hm2, Mem.setBuf, hm1]
    omega
  rw [Mem.get_alloc_old _ hplt2, hm2]
  exact Mem.get_setBuf_self _ (by simp [hm1]; omega)

/-- Same as COW_Unsafe.append_sharedU for the atomic variant. -/
theorem COW_AtomicInt.append_sharedA {m : Mem} {p : Nat} {sb : StringBuf}
    (hget : m.get p = some sb) (hr : 1 < sb.refs) (c : Char) :
    ∃ q m', COW_AtomicInt.Append m p c = some (q, m') ∧ p ≠ q ∧
      m'.get p = some { sb with refs := sb.refs - 1 } := by
  have hlt : p < m.heap.length := Mem.get_lt_length hget
  have heu := COW_AtomicInt.eu_sharedA (sb.used + 1) hget hr
  set m1 : Mem := { m with nAllocs := m.nAllocs + (StringBuf.cloneCtor sb (sb.used + 1)).2 }
    with hm1
  have hq : (m1.alloc (StringBuf.cloneCtor sb (sb.used + 1)).1).1 = m.heap.length := by
    simp [Mem.alloc, hm1]
  have hne : p ≠ (m1.alloc (StringBuf.cloneCtor sb (sb.used + 1)).1).1 := by
    rw [hq]
    omega
  have hgetq : ((m1.alloc (StringBuf.cloneCtor sb (sb.used + 1)).1).2.setBuf p
      { sb with refs := sb.refs - 1 }).get
        (m1.alloc (StringBuf.cloneCtor sb (sb.used + 1)).1).1
      = some (StringBuf.cloneCtor sb (sb.used + 1)).1 := by
    rw [Mem.get_setBuf_ne _ hne]
    exact Mem.get_alloc_new m1 _
  rw [show COW_AtomicInt.Append = Common.Append COW_AtomicInt.EnsureUnique from rfl,
    Common.Append]
  simp only [hget, Option.some_bind, Option.bind_eq_bind, heu, hgetq]
  refine ⟨_, _, rfl, hne, ?_⟩
  rw [Mem.get_setBuf_ne _ (fun hcontra => hne hcontra.symm)]
  have hplt1 : p < (m1.alloc (StringBuf.cloneCtor sb (sb.used + 1)).1).2.heap.length := by
    simp [Mem.alloc, hm1]
    omega
  rw [Mem.get_setBuf_self _ hplt1]

/-- Same as COW_Unsafe.append_sharedU for the single-allocation variant. -/
theorem COW_AtomicInt2.append_sharedA2 {m : Mem2} {p : Nat} {g : Glom}
    (hget : m.get p = some g) (hr : 1 < g.hdr.refs) (c : Char) :
    ∃ q m', COW_AtomicInt2.Append m p c = some (q, m') ∧ p ≠ q ∧
      m'.get p = some { g with hdr := { g.hdr with refs := g.hdr.refs - 1 } } := by
  have hlt : p < m.heap.length := Mem2.get2_lt_length hget
  have hcmp : IntAtomicCompare g.hdr.refs 1 > 0 := by
    unfold IntAtomicCompare
    split
    · omega
    · split <;> omega
  have hnd : ¬ g.hdr.refs - 1 < 1 := by omega
  have heu : COW_AtomicInt2.EnsureUnique m p (g.hdr.used + 1) =
      some ((m.alloc (COW_AtomicInt2.Clone g (g.hdr.used + 1))).1,
        ({ (m.alloc (COW_AtomicInt2.Clone g (g.hdr.used + 1))).2 with
            nAllocs := (m.alloc (COW_AtomicInt2.Clone g (g.hdr.used + 1))).2.nAllocs + 1
          }).setBuf p { g with hdr := { g.hdr with refs := g.hdr.refs - 1 } }) := by
    rw [COW_AtomicInt2.EnsureUnique]
    simp [hget, hcmp, hnd]
  have hq : (m.alloc (COW_AtomicInt2.Clone g (g.hdr.used + 1))).1 = m.heap.length := rfl
  have hne : p ≠ (m.alloc (COW_AtomicInt2.Clone g (g.hdr.used + 1))).1 := by
    rw [hq]
    omega
  have hgetq : (({ (m.alloc (COW_AtomicInt2.Clone g (g.hdr.used + 1))).2 with
      nAllocs := (m.alloc (COW_AtomicInt2.Clone g (g.hdr.used + 1))).2.nAllocs + 1
      }).setBuf p { g with hdr := { g.hdr with refs := g.hdr.refs - 1 } }).get
        (m.alloc (COW_AtomicInt2.Clone g (g.hdr.used + 1))).1
      = some (COW_AtomicInt2.Clone g (g.hdr.used + 1)) := by
    rw [Mem2.get2_setBuf_ne _ hne]
    exact Mem2.get2_alloc_new m _
  rw [COW_AtomicInt2.Append]
  simp only [hget, Option.some_bind, Option.bind_eq_bind, heu, hgetq]
  refine ⟨_, _, rfl, hne, ?_⟩
  rw [Mem2.get2_setBuf_ne _ (fun hcontra => hne hcontra.symm)]
  apply Mem2.get2_setBuf_self
  simp [Mem2.alloc]
  omega

/-- COW_Unsafe EnsureUnshareable on a shared buffer: clone and mark the fresh
buffer with the -1 sentinel; the old buffer just loses one reference. -/
theorem COW_Unsafe.unsh_shared {m : Mem} {p : Nat} {sb : StringBuf} (n : Nat)
    (hget : m.get p = some sb) (hr : 1 < sb.refs) :
    COW_Unsafe.EnsureUnshareable m p n =
      some (((({ m with nAllocs := m.nAllocs + (StringBuf.cloneCtor sb n).2 }).setBuf p
          { sb with refs := sb.refs - 1 }).alloc (StringBuf.cloneCtor sb n).1).1,
        ((({ m with nAllocs := m.nAllocs + (StringBuf.cloneCtor sb n).2 }).setBuf p
          { sb with refs := sb.refs - 1 }).alloc (StringBuf.cloneCtor sb n).1).2.setBuf
          ((({ m with nAllocs := m.nAllocs + (StringBuf.cloneCtor sb n).2 }).setBuf p
            { sb with refs := sb.refs - 1 }).alloc (StringBuf.cloneCtor sb n).1).1
          { (StringBuf.cloneCtor sb n).1 with refs := -1 }) := by
  have heu := COW_Unsafe.eu_sharedU n hget hr
  have hgetq := Mem.get_alloc_new
    (({ m with nAllocs := m.nAllocs + (StringBuf.cloneCtor sb n).2 }).setBuf p
      { sb with refs := sb.refs - 1 }) (StringBuf.cloneCtor sb n).1
  rw [show COW_Unsafe.EnsureUnshareable = Common.EnsureUnshareable COW_Unsafe.EnsureUnique
    from rfl, Common.EnsureUnshareable]
  simp only [heu, Option.some_bind, Option.bind_eq_bind, hgetq]
  rfl

/-- A mutation through operator[] on a shared COW_Unsafe buffer: the writer
detaches onto a fresh unshareable clone; the shared buffer only loses one
reference. -/
theorem COW_Unsafe.write_sharedU {m : Mem} {p : Nat} {sb : StringBuf} {n : Nat}
    (hget : m.get p = some sb) (hr : 1 < sb.refs) (hn : n < sb.len) (c : Char) :
    ∃ q m', COW_Unsafe.opIndexWrite m p n c = some (q, m') ∧ p ≠ q ∧
      m'.get p = some { sb with refs := sb.refs - 1 } := by
  have hlt : p < m.heap.length := Mem.get_lt_length hget
  have hunsh := COW_Unsafe.unsh_shared sb.len hget hr
  set m2 : Mem := ({ m with nAllocs := m.nAllocs + (StringBuf.cloneCtor sb sb.len).2 }).setBuf p
    { sb with refs := sb.refs - 1 } with hm2
  have hq : (m2.alloc (StringBuf.cloneCtor sb sb.len).1).1 = m.heap.length := by
    simp [Mem.alloc, hm2, Mem.setBuf]
  have hne : p ≠ (m2.alloc (StringBuf.cloneCtor sb sb.len).1).1 := by
    rw [hq]
    omega
  have hqlt : (m2.alloc (StringBuf.cloneCtor sb sb.len).1).1
      < (m2.alloc (StringBuf.cloneCtor sb sb.len).1).2.heap.length := by
    simp only [Mem.alloc, List.length_append, List.length_cons, List.length_nil]
    omega
  have hgetq : ((m2.alloc (StringBuf.cloneCtor sb sb.len).1).2.setBuf
      (m2.alloc (StringBuf.cloneCtor sb sb.len).1).1
      { (StringBuf.cloneCtor sb sb.len).1 with refs := -1 }).get
        (m2.alloc (StringBuf.cloneCtor sb sb.len).1).1
      = some { (StringBuf.cloneCtor sb sb.len).1 with refs := -1 } := by
    apply Mem.get_setBuf_self
    simpa using hqlt
  have hblen : n < ({ (StringBuf.cloneCtor sb sb.len).1 with refs := -1 } : StringBuf).buf.length := by
    show n < (StringBuf.cloneCtor sb sb.len).1.buf.length
    rw [cloneCtor_buf_length, cloneCtor_len]
    have h1 := roundUp4_ge (Nat.max sb.len sb.len)
    have h2 : Nat.max sb.len sb.len = sb.len := Nat.max_self sb.len
    omega
  rw [show COW_Unsafe.opIndexWrite = Common.opIndexWrite COW_Unsafe.EnsureUnique from rfl,
    Common.opIndexWrite]
  rw [← show COW_Unsafe.EnsureUnshareable = Common.EnsureUnshareable COW_Unsafe.EnsureUnique
    from rfl]
  simp only [hget, Option.some_bind, Option.bind_eq_bind, hunsh, hgetq, hblen, if_true]
  refine ⟨_, _, rfl, hne, ?_⟩
  rw [Mem.get_setBuf_ne _ (fun hcontra => hne hcontra.symm)]
  rw [Mem.get_setBuf_ne _ (fun hcontra => hne hcontra.symm)]
  have hplt2 : p < m2.heap.length := by
    simp [hm2, Mem.setBuf]
    omega
  rw [Mem.get_alloc_old _ hplt2, hm2]
  exact Mem.get_setBuf_self _ (by simp; omega)

/-- Same as COW_Unsafe.write_sharedU for the atomic variant. -/
theorem COW_AtomicInt.write_sharedA {m : Mem} {p : Nat} {sb : StringBuf} {n : Nat}
    (hget : m.get p = some sb) (hr : 1 < sb.refs) (hn : n < sb.len) (c : Char) :
    ∃ q m', COW_AtomicInt.opIndexWrite m p n c = some (q, m') ∧ p ≠ q ∧
      m'.get p = some { sb with refs := sb.refs - 1 } := by
  have hlt : p < m.heap.length := Mem.get_lt_length hget
  have heu := COW_AtomicInt.eu_sharedA sb.len hget hr
  set m1 : Mem := { m with nAllocs := m.nAllocs + (StringBuf.cloneCtor sb sb.len).2 } with hm1
  have hq : (m1.alloc (StringBuf.cloneCtor sb sb.len).1).1 = m.heap.length := by
    simp [Mem.alloc, hm1]
  have hne : p ≠ (m1.alloc (StringBuf.cloneCtor sb sb.len).1).1 := by
    rw [hq]
    omega
  set m0 : Mem := (m1.alloc (StringBuf.cloneCtor sb sb.len).1).2.setBuf p
    { sb with refs := sb.refs - 1 } with hm0
  have hqlt : (m1.alloc (StringBuf.cloneCtor sb sb.len).1).1 < m0.heap.length := by
    simp only [hm0, Mem.setBuf_length, Mem.alloc, List.length_append, List.length_cons,
      List.length_nil]
    omega
  have hgetq : m0.get (m1.alloc (StringBuf.cloneCtor sb sb.len).1).1
      = some (StringBuf.cloneCtor sb sb.len).1 := by
    rw [hm0, Mem.get_setBuf_ne _ hne]
    exact Mem.get_alloc_new m1 _
  have hunsh : COW_AtomicInt.EnsureUnshareable m p sb.len =
      some ((m1.alloc (StringBuf.cloneCtor sb sb.len).1).1,
        m0.setBuf (m1.alloc (StringBuf.cloneCtor sb sb.len).1).1
          { (StringBuf.cloneCtor sb sb.len).1 with refs := -1 }) := by
    rw [show COW_AtomicInt.EnsureUnshareable = Common.EnsureUnshareable COW_AtomicInt.EnsureUnique
      from rfl, Common.EnsureUnshareable]
    simp only [heu, Option.some_bind, Option.bind_eq_bind, ← hm0, hgetq]
    rfl
  have hgetq2 : (m0.setBuf (m1.alloc (StringBuf.cloneCtor sb sb.len).1).1
      { (StringBuf.cloneCtor sb sb.len).1 with refs := -1 }).get
        (m1.alloc (StringBuf.cloneCtor sb sb.len).1).1
      = some { (StringBuf.cloneCtor sb sb.len).1 with refs := -1 } := by
    exact Mem.get_setBuf_self _ hqlt
  have hblen : n < ({ (StringBuf.cloneCtor sb sb.len).1 with refs := -1 } : StringBuf).buf.length := by
    show n < (StringBuf.cloneCtor sb sb.len).1.buf.length
    rw [cloneCtor_buf_length, cloneCtor_len]
    have h1 := roundUp4_ge (Nat.max sb.len sb.len)
    have h2 : Nat.max sb.len sb.len = sb.len := Nat.max_self sb.len
    omega
  rw [show COW_AtomicInt.opIndexWrite = Common.opIndexWrite COW_AtomicInt.EnsureUnique from rfl,
    Common.opIndexWrite]
  rw [← show COW_AtomicInt.EnsureUnshareable
      = Common.EnsureUnshareable COW_AtomicInt.EnsureUnique from rfl]
  simp only [hget, Option.some_bind, Option.bind_eq_bind, hunsh, hgetq2, hblen, if_true]
  refine ⟨_, _, rfl, hne, ?_⟩
  rw [Mem.get_setBuf_ne _ (fun hcontra => hne hcontra.symm)]
  rw [Mem.get_setBuf_ne _ (fun hcontra => hne hcontra.symm)]
  rw [hm0]
  apply Mem.get_setBuf_self
  simp only [Mem.alloc, List.length_append, List.length_cons, List.length_nil]
  omega

/-- Same as COW_Unsafe.write_sharedU for the single-allocation variant. -/
theorem COW_AtomicInt2.write_sharedA2 {m : Mem2} {p : Nat} {g : Glom} {n : Nat}
    (hget : m.get p = some g) (hr : 1 < g.hdr.refs) (hn : n < g.hdr.len)
    (hdl : g.data.length = g.hdr.len) (hul : g.hdr.used ≤ g.hdr.len) (c : Char) :
    ∃ q m', COW_AtomicInt2.opIndexWrite m p n c = some (q, m') ∧ p ≠ q ∧
      m'.get p = some { g with hdr := { g.hdr with refs := g.hdr.refs - 1 } } := by
  have hlt : p < m.heap.length := Mem2.get2_lt_length hget
  have hcmp : IntAtomicCompare g.hdr.refs 1 > 0 := by
    unfold IntAtomicCompare
    split
    · omega
    · split <;> omega
  have hnd : ¬ g.hdr.refs - 1 < 1 := by omega
  have heu : COW_AtomicInt2.EnsureUnique m p g.hdr.len =
      some ((m.alloc (COW_AtomicInt2.Clone g g.hdr.len)).1,
        ({ (m.alloc (COW_AtomicInt2.Clone g g.hdr.len)).2 with
            nAllocs := (m.alloc (COW_AtomicInt2.Clone g g.hdr.len)).2.nAllocs + 1
          }).setBuf p { g with hdr := { g.hdr with refs := g.hdr.refs - 1 } }) := by
    rw [COW_AtomicInt2.EnsureUnique]
    simp [hget, hcmp, hnd]
  have hq : (m.alloc (COW_AtomicInt2.Clone g g.hdr.len)).1 = m.heap.length := rfl
  have hne : p ≠ (m.alloc (COW_AtomicInt2.Clone g g.hdr.len)).1 := by
    rw [hq]
    omega
  set m0 : Mem2 := ({ (m.alloc (COW_AtomicInt2.Clone g g.hdr.len)).2 with
      nAllocs := (m.alloc (COW_AtomicInt2.Clone g g.hdr.len)).2.nAllocs + 1 }).setBuf p
      { g with hdr := { g.hdr with refs := g.hdr.refs - 1 } } with hm0
  have hqlt : (m.alloc (COW_AtomicInt2.Clone g g.hdr.len)).1 < m0.heap.length := by
    simp only [hm0, Mem2.setBuf2_length, Mem2.alloc, List.length_append, List.length_cons,
      List.length_nil]
    omega
  have hgetq : m0.get (m.alloc (COW_AtomicInt2.Clone g g.hdr.len)).1
      = some (COW_AtomicInt2.Clone g g.hdr.len) := by
    rw [hm0, Mem2.get2_setBuf_ne _ hne]
    exact Mem2.get2_alloc_new _ _
  have hunsh : COW_AtomicInt2.EnsureUnshareable m p g.hdr.len =
      some ((m.alloc (COW_AtomicInt2.Clone g g.hdr.len)).1,
        m0.setBuf (m.alloc (COW_AtomicInt2.Clone g g.hdr.len)).1
          { COW_AtomicInt2.Clone g g.hdr.len with
              hdr := { (COW_AtomicInt2.Clone g g.hdr.len).hdr with refs := -1 } }) := by
    rw [COW_AtomicInt2.EnsureUnshareable]
    simp only [heu, Option.some_bind, Option.bind_eq_bind, ← hm0, hgetq]
    rfl
  have hgetq2 : (m0.setBuf (m.alloc (COW_AtomicInt2.Clone g g.hdr.len)).1
      { COW_AtomicInt2.Clone g g.hdr.len with
          hdr := { (COW_AtomicInt2.Clone g g.hdr.len).hdr with refs := -1 } }).get
        (m.alloc (COW_AtomicInt2.Clone g g.hdr.len)).1
      = some { COW_AtomicInt2.Clone g g.hdr.len with
          hdr := { (COW_AtomicInt2.Clone g g.hdr.len).hdr with refs := -1 } } :=
    Mem2.get2_setBuf_self _ hqlt
  have hused : g.hdr.used ≤ g.data.length := by omega
  have hblen : n < ({ COW_AtomicInt2.Clone g g.hdr.len with
      hdr := { (COW_AtomicInt2.Clone g g.hdr.len).hdr with refs := -1 } } : Glom).data.length := by
    show n < (COW_AtomicInt2.Clone g g.hdr.len).data.length
    rw [Clone_data_length hused hul]
    have := (Clone_len_ge g g.hdr.len).2
    omega
  rw [COW_AtomicInt2.opIndexWrite]
  simp only [hget, Option.some_bind, Option.bind_eq_bind, hunsh, hgetq2, hblen, if_true]
  refine ⟨_, _, rfl, hne, ?_⟩
  rw [Mem2.get2_setBuf_ne _ (fun hcontra => hne hcontra.symm)]
  rw [Mem2.get2_setBuf_ne _ (fun hcontra => hne hcontra.symm)]
  rw [hm0]
  apply Mem2.get2_setBuf_self
  simp only [Mem2.alloc, List.length_append, List.length_cons, List.length_nil]
  omega

/-- COW_Unsafe copy construction from a shareable buffer: O(1) refcount share. -/
theorem COW_Unsafe.copy_sharedU {m : Mem} {p : Nat} {sb : StringBuf}
    (hget : m.get p = some sb) (hr : 0 < sb.refs) :
    COW_Unsafe.stringCopy m p = some (p,
      { (m.setBuf p { sb with refs := sb.refs + 1 }) with nCopies := m.nCopies + 1 }) := by
  rw [COW_Unsafe.stringCopy]
  simp [hget, hr, Mem.setBuf]

/-- COW_AtomicInt copy construction from a shareable buffer. -/
theorem COW_AtomicInt.copy_sharedA {m : Mem} {p : Nat} {sb : StringBuf}
    (hget : m.get p = some sb) (hr : 0 < sb.refs) :
    COW_AtomicInt.stringCopy m p = some (p,
      { (m.setBuf p { sb with refs := sb.refs + 1 }) with nCopies := m.nCopies + 1 }) := by
  have hcmp : IntAtomicCompare sb.refs 0 > 0 := by
    unfold IntAtomicCompare
    split
    · omega
    · split <;> omega
  rw [COW_AtomicInt.stringCopy]
  simp [hget, hcmp, Mem.setBuf]

/-- COW_AtomicInt2 copy construction from a shareable buffer. -/
theorem COW_AtomicInt2.copy_sharedA2 {m : Mem2} {p : Nat} {g : Glom}
    (hget : m.get p = some g) (hr : 0 < g.hdr.refs) :
    COW_AtomicInt2.stringCopy m p = some (p,
      { (m.setBuf p { g with hdr := { g.hdr with refs := g.hdr.refs + 1 } }) with
          nCopies := m.nCopies + 1 }) := by
  have hcmp : IntAtomicCompare g.hdr.refs 0 > 0 := by
    unfold IntAtomicCompare
    split
    · omega
    · split <;> omega
  rw [COW_AtomicInt2.stringCopy]
  simp [hget, hcmp, Mem2.setBuf]

/-- COW_Unsafe copy construction from an unshareable (refs < 0) buffer: a full
deep clone through the StringBuf clone constructor; the source buffer's
refcount is left at its negative sentinel. -/
theorem COW_Unsafe.copy_unshareableU {m : Mem} {p : Nat} {sb : StringBuf}
    (hget : m.get p = some sb) (hr : sb.refs < 0) :
    ∃ q m', COW_Unsafe.stringCopy m p = some (q, m') ∧ p ≠ q ∧
      m'.get p = some sb ∧ m'.get q = some (StringBuf.cloneCtor sb 0).1 ∧
      m'.nCopies = m.nCopies + 1 := by
  have hlt : p < m.heap.length := Mem.get_lt_length hget
  have hng : ¬ sb.refs > 0 := by omega
  rw [COW_Unsafe.stringCopy]
  simp only [hget, Option.some_bind, Option.bind_eq_bind, hng, if_false]
  refine ⟨_, _, rfl, by simp [Mem.alloc]; omega, ?_, ?_, rfl⟩
  · show ((m.alloc (StringBuf.cloneCtor sb 0).1).2).get p = some sb
    rw [Mem.get_alloc_old _ hlt]
    exact hget
  · exact Mem.get_alloc_new m _

/-- COW_AtomicInt copy construction from an unshareable buffer. -/
theorem COW_AtomicInt.copy_unshareableA {m : Mem} {p : Nat} {sb : StringBuf}
    (hget : m.get p = some sb) (hr : sb.refs < 0) :
    ∃ q m', COW_AtomicInt.stringCopy m p = some (q, m') ∧ p ≠ q ∧
      m'.get p = some sb ∧ m'.get q = some (StringBuf.cloneCtor sb 0).1 ∧
      m'.nCopies = m.nCopies + 1 := by
  have hlt : p < m.heap.length := Mem.get_lt_length hget
  have hng : ¬ IntAtomicCompare sb.refs 0 > 0 := by
    have hv : IntAtomicCompare sb.refs 0 = -1 := by
      unfold IntAtomicCompare
      rw [if_pos hr]
    rw [hv]
    omega
  rw [COW_AtomicInt.stringCopy]
  simp only [hget, Option.some_bind, Option.bind_eq_bind, hng, if_false]
  refine ⟨_, _, rfl, by simp [Mem.alloc]; omega, ?_, ?_, rfl⟩
  · show ((m.alloc (StringBuf.cloneCtor sb 0).1).2).get p = some sb
    rw [Mem.get_alloc_old _ hlt]
    exact hget
  · exact Mem.get_alloc_new m _

/-- COW_AtomicInt2 copy construction from an unshareable buffer: a full deep
clone through Clone (which copies the used character bytes). -/
theorem COW_AtomicInt2.copy_unshareableA2 {m : Mem2} {p : Nat} {g : Glom}
    (hget : m.get p = some g) (hr : g.hdr.refs < 0) :
    ∃ q m', COW_AtomicInt2.stringCopy m p = some (q, m') ∧ p ≠ q ∧
      m'.get p = some g ∧ m'.get q = some (COW_AtomicInt2.Clone g 0) ∧
      m'.nCopies = m.nCopies + 1 := by
  have hlt : p < m.heap.length := Mem2.get2_lt_length hget
  have hng : ¬ IntAtomicCompare g.hdr.refs 0 > 0 := by
    have hv : IntAtomicCompare g.hdr.refs 0 = -1 := by
      unfold IntAtomicCompare
      rw [if_pos hr]
    rw [hv]
    omega
  rw [COW_AtomicInt2.stringCopy]
  simp only [hget, Option.some_bind, Option.bind_eq_bind, hng, if_false]
  refine ⟨_, _, rfl, by simp [Mem2.alloc]; omega, ?_, ?_, rfl⟩
  · show ((m.alloc (COW_AtomicInt2.Clone g 0)).2).get p = some g
    rw [Mem2.get2_alloc_old _ hlt]
    exact hget
  · exact Mem2.get2_alloc_new m _

/-- The reference returned together with the post-state of Append on an
unshared buffer: the handle's buffer ends with refs reset to 1. -/
theorem Append_resets {eu : Mem → Nat → Nat → Option (Nat × Mem)}
    (heu : EUUnsharedLe eu) {m : Mem} {p : Nat} {sb : StringBuf}
    (hget : m.get p = some sb) (hr : sb.refs ≤ 1) (c : Char) :
    ∃ m', Common.Append eu m p c = some (p, m') ∧
      ∃ sb', m'.get p = some sb' ∧ sb'.refs = 1 := by
  have hlt : p < m.heap.length := Mem.get_lt_length hget
  refine ⟨appendResult m p sb c, Append_unshared heu hget hr c, ?_⟩
  refine ⟨{ buf := (sb.Reserve (sb.used + 1)).1.buf.set sb.used (some c),
            len := (sb.Reserve (sb.used + 1)).1.len,
            used := sb.used + 1, refs := 1 }, ?_, rfl⟩
  exact Mem.get_setBuf_self _ hlt

/-- COW_AtomicInt2 Append on an unshared buffer resets refs to 1. -/
theorem COW_AtomicInt2.append_resetsA2 {m : Mem2} {p : Nat} {g : Glom}
    (hget : m.get p = some g) (hr : g.hdr.refs ≤ 1)
    (hdl : g.data.length = g.hdr.len) (hul : g.hdr.used ≤ g.hdr.len) (c : Char) :
    ∃ q m', COW_AtomicInt2.Append m p c = some (q, m') ∧
      ∃ g', m'.get q = some g' ∧ g'.hdr.refs = 1 := by
  obtain ⟨q, m1, g1, heu, hget1, hhlen, hrefs1, husd1, hdl1, hnle, hlele, htake1⟩ :=
    EnsureUnique2_unshared hget hr hdl hul (n := g.hdr.used + 1)
  have hqlt : q < m1.heap.length := Mem2.get2_lt_length hget1
  rw [COW_AtomicInt2.Append]
  simp only [hget, Option.some_bind, Option.bind_eq_bind, heu, hget1]
  refine ⟨q, _, rfl, ?_⟩
  refine ⟨{ hdr := { g1.hdr with used := g1.hdr.used + 1 },
            data := g1.data.set g1.hdr.used (some c) }, ?_, by simpa using hrefs1⟩
  exact Mem2.get2_setBuf_self _ hqlt

/-- COW_Unsafe Clear on an unshared (here: unshareable) buffer restores refs
to 1 in place. -/
theorem COW_Unsafe.clear_resetsU {m : Mem} {p : Nat} {sb : StringBuf}
    (hget : m.get p = some sb) (hr : sb.refs ≤ 1) :
    COW_Unsafe.Clear m p
      = some (p, m.setBuf p { sb.Clear with refs := 1 }) := by
  rw [COW_Unsafe.Clear]
  simp [hget, show ¬ sb.refs > 1 by omega]

/-- COW_AtomicInt Clear on an unshareable buffer restores refs to 1 in place. -/
theorem COW_AtomicInt.clear_resetsA {m : Mem} {p : Nat} {sb : StringBuf}
    (hget : m.get p = some sb) (hr : sb.refs ≤ 1) :
    COW_AtomicInt.Clear m p
      = some (p, m.setBuf p { sb.Clear with refs := 1 }) := by
  rw [COW_AtomicInt.Clear]
  simp [hget, show sb.refs - 1 < 1 by omega]

/-- COW_AtomicInt2 Clear hands the String a reconstructed buffer with refs 1
(and releases the old unshareable one). -/
theorem COW_AtomicInt2.clear_resetsA2 {m : Mem2} {p : Nat} {g : Glom}
    (hget : m.get p = some g) (hr : g.hdr.refs ≤ 1) :
    ∃ t m', COW_AtomicInt2.Clear m p = some (t, m') ∧
      m'.get t = some { hdr := { len := 0, used := 0, refs := 1 }, data := [] } := by
  have hlt : p < m.heap.length := Mem2.get2_lt_length hget
  have hne : p ≠ m.heap.length := by omega
  have hget1 : (COW_AtomicInt2.stringNew m).2.get p = some g := by
    show ({ (m.alloc _).2 with nAllocs := _ }).get p = some g
    show ((m.alloc _).2).get p = some g
    rw [Mem2.get2_alloc_old _ hlt]
    exact hget
  have hdtor : COW_AtomicInt2.dtor (COW_AtomicInt2.stringNew m).2 p =
      some ((COW_AtomicInt2.stringNew m).2.free p) := by
    rw [COW_AtomicInt2.dtor]
    simp [hget1, show g.hdr.refs - 1 < 1 by omega]
  rw [COW_AtomicInt2.Clear]
  simp only [hdtor, Option.some_bind, Option.bind_eq_bind]
  refine ⟨(COW_AtomicInt2.stringNew m).1, _, rfl, ?_⟩
  show (((m.alloc { hdr := { len := 0, used := 0, refs := 1 }, data := [] }).2).free p).get
    m.heap.length = _
  rw [Mem2.get_free_ne hne]
  exact Mem2.get2_alloc_new m _

theorem scanFree_eq_none_iff (l : List Int) :
    FastArena.scanFree l = none ↔ ∀ v ∈ l, v ≠ 0 := by
  induction l with
  | nil => simp [FastArena.scanFree]
  | cons v rest ih =>
    unfold FastArena.scanFree
    by_cases hv : v = 0
    · simp [hv]
    · simp [hv, ih]

theorem scanFree_get {l : List Int} {i : Nat} (h : FastArena.scanFree l = some i) :
    l.get? i = some 0 := by
  induction l generalizing i with
  | nil => simp [FastArena.scanFree] at h
  | cons v rest ih =>
    unfold FastArena.scanFree at h
    by_cases hv : v = 0
    · rw [if_pos hv] at h
      cases h
      simp [hv]
    · rw [if_neg hv] at h
      cases hs : FastArena.scanFree rest with
      | none =>
        rw [hs] at h
        simp at h
      | some j =>
        rw [hs] at h
        simp only [Option.map_some'] at h
        cases h
        simpa using ih hs

/-- Generic fact: a successful EnsureUnshareable leaves the handle's buffer
with the -1 sentinel, whatever the variant's EnsureUnique did. -/
theorem EnsureUnshareable_sets (eu : Mem → Nat → Nat → Option (Nat × Mem))
    {m : Mem} {p n q : Nat} {m1 : Mem}
    (h : Common.EnsureUnshareable eu m p n = some (q, m1)) :
    ∃ sb1, m1.get q = some sb1 ∧ sb1.refs = -1 := by
  rw [Common.EnsureUnshareable] at h
  cases heu : eu m p n with
  | none =>
    rw [heu] at h
    simp at h
  | some r =>
    rw [heu] at h
    simp only [Option.bind_eq_bind, Option.some_bind] at h
    cases hg : r.2.get r.1 with
    | none =>
      rw [hg] at h
      simp at h
    | some sb1 =>
      rw [hg] at h
      simp only [Option.some_bind, Option.pure_def, Option.some_inj] at h
      cases h
      refine ⟨{ sb1 with refs := -1 }, ?_, rfl⟩
      exact Mem.get_setBuf_self _ (Mem.get_lt_length hg)

/-- Generic fact for COW_AtomicInt2: a successful EnsureUnshareable leaves the
handle's buffer with the -1 sentinel. -/
theorem EnsureUnshareable2_sets {m : Mem2} {p n q : Nat} {m1 : Mem2}
    (h : COW_AtomicInt2.EnsureUnshareable m p n = some (q, m1)) :
    ∃ g1, m1.get q = some g1 ∧ g1.hdr.refs = -1 := by
  rw [COW_AtomicInt2.EnsureUnshareable] at h
  cases heu : COW_AtomicInt2.EnsureUnique m p n with
  | none =>
    rw [heu] at h
    simp at h
  | some r =>
    rw [heu] at h
    simp only [Option.bind_eq_bind, Option.some_bind] at h
    cases hg : r.2.get r.1 with
    | none =>
      rw [hg] at h
      simp at h
    | some g1 =>
      rw [hg] at h
      simp only [Option.some_bind, Option.pure_def, Option.some_inj] at h
      cases h
      refine ⟨{ g1 with hdr := { g1.hdr with refs := -1 } }, ?_, rfl⟩
      exact Mem2.get2_setBuf_self _ (Mem2.get2_lt_length hg)

/-- Claim C1: the clone constructor StringBuf(X, n) sets used to X's used and
refcount to 1, but it does NOT copy X's occupied bytes: the body runs
memcpy(buf, other.buf, used) while this->used is still 0 (the member
initializer), so zero bytes are copied and the clone's occupied region stays
indeterminate.  Evaluated at X = a buffer holding one byte 'X': the clone's
first byte is the indeterminate cell, not 'X'. -/
theorem cloneCtor_drops_content_bug :
    (StringBuf.cloneCtor { buf := [some 'X', none, none, none], len := 4, used := 1, refs := 1 } 0).1.used = 1 ∧
    (StringBuf.cloneCtor { buf := [some 'X', none, none, none], len := 4, used := 1, refs := 1 } 0).1.refs = 1 ∧
    (StringBuf.cloneCtor { buf := [some 'X', none, none, none], len := 4, used := 1, refs := 1 } 0).1.buf.getD 0 none = none ∧
    (StringBuf.cloneCtor { buf := [some 'X', none, none, none], len := 4, used := 1, refs := 1 } 0).1.buf.getD 0 none ≠ some 'X' := by
  decide

/-- Claim C2: COW_AtomicInt2 is NOT observably identical to COW_AtomicInt.
The same script — build "X", copy it, Append 'a' through the copy, read the
copy's first character — returns the indeterminate cell under COW_AtomicInt
(its deep clone goes through the StringBuf clone constructor, which copies
zero bytes), but 'X' under COW_AtomicInt2 (its Clone memcpy covers
sizeof(StringBuf) + USED(data) bytes, so the occupied bytes survive). -/
theorem atomicInt_atomicInt2_observable_divergence :
    COW_AtomicInt.demo = some none ∧
    COW_AtomicInt2.demo = some (some 'X') ∧
    COW_AtomicInt.demo ≠ COW_AtomicInt2.demo := by
  refine ⟨by decide, by decide, ?_⟩
  intro h
  have h1 : COW_AtomicInt.demo = some none := by decide
  have h2 : COW_AtomicInt2.demo = some (some 'X') := by decide
  rw [h1, h2] at h
  cases h

/-- Claim C5 counterexample: the clone constructor's capacity is NOT
max(1.5 × X's capacity, n) rounded up to a multiple of 4.  At X with capacity
8 and n = 0, that formula gives 12, but the code allocates 8: the Reserve call
runs on the freshly zero-initialized object, so the 1.5 factor applies to the
new object's len (0), not to X's. -/
theorem cloneCtor_capacity_cex :
    (StringBuf.cloneCtor { buf := List.replicate 8 none, len := 8, used := 0, refs := 1 } 0).1.len
      ≠ roundUp4 (Nat.max (3 * 8 / 2) 0) := by
  decide

/-- Claim C5 (amended): the clone constructor StringBuf(X, n) allocates
capacity max(X's capacity, n) rounded up to the next multiple of 4 elements
(0 when both are 0). -/
theorem cloneCtor_capacity (other : StringBuf) (n : Nat) :
    (StringBuf.cloneCtor other n).1.len = roundUp4 (Nat.max other.len n) :=
  cloneCtor_len other n

/-- Claim C6: for every COW variant, copy construction from a String whose
buffer is shareable (refcount > 0) leaves nAllocs unchanged, increments
nCopies by exactly 1, attaches the copy to the same buffer (the returned
pointer is the source's pointer), and increments that buffer's refcount by 1. -/
theorem cow_cheap_copy :
    (∀ (m : Mem) (p : Nat) (sb : StringBuf), m.get p = some sb → 0 < sb.refs →
      ∃ m', COW_Unsafe.stringCopy m p = some (p, m') ∧ m'.nAllocs = m.nAllocs ∧
        m'.nCopies = m.nCopies + 1 ∧ m'.get p = some { sb with refs := sb.refs + 1 }) ∧
    (∀ (m : Mem) (p : Nat) (sb : StringBuf), m.get p = some sb → 0 < sb.refs →
      ∃ m', COW_AtomicInt.stringCopy m p = some (p, m') ∧ m'.nAllocs = m.nAllocs ∧
        m'.nCopies = m.nCopies + 1 ∧ m'.get p = some { sb with refs := sb.refs + 1 }) ∧
    (∀ (m : Mem) (p : Nat) (sb : StringBuf), m.get p = some sb → 0 < sb.refs →
      ∃ m', COW_CritSec.stringCopy m p = some (p, m') ∧ m'.nAllocs = m.nAllocs ∧
        m'.nCopies = m.nCopies + 1 ∧ m'.get p = some { sb with refs := sb.refs + 1 }) ∧
    (∀ (m : Mem) (p : Nat) (sb : StringBuf), m.get p = some sb → 0 < sb.refs →
      ∃ m', COW_Mutex.stringCopy m p = some (p, m') ∧ m'.nAllocs = m.nAllocs ∧
        m'.nCopies = m.nCopies + 1 ∧ m'.get p = some { sb with refs := sb.refs + 1 }) ∧
    (∀ (m : Mem2) (p : Nat) (g : Glom), m.get p = some g → 0 < g.hdr.refs →
      ∃ m', COW_AtomicInt2.stringCopy m p = some (p, m') ∧ m'.nAllocs = m.nAllocs ∧
        m'.nCopies = m.nCopies + 1 ∧
        m'.get p = some { g with hdr := { g.hdr with refs := g.hdr.refs + 1 } }) := by
  refine ⟨?_, ?_, ?_, ?_, ?_⟩
  · intro m p sb hget hr
    refine ⟨_, COW_Unsafe.copy_sharedU hget hr, rfl, rfl, ?_⟩
    show (m.setBuf p { sb with refs := sb.refs + 1 }).get p = _
    exact Mem.get_setBuf_self _ (Mem.get_lt_length hget)
  · intro m p sb hget hr
    refine ⟨_, COW_AtomicInt.copy_sharedA hget hr, rfl, rfl, ?_⟩
    show (m.setBuf p { sb with refs := sb.refs + 1 }).get p = _
    exact Mem.get_setBuf_self _ (Mem.get_lt_length hget)
  · intro m p sb hget hr
    rw [COW_CritSec.copy_eqC]
    refine ⟨_, COW_Unsafe.copy_sharedU hget hr, rfl, rfl, ?_⟩
    show (m.setBuf p { sb with refs := sb.refs + 1 }).get p = _
    exact Mem.get_setBuf_self _ (Mem.get_lt_length hget)
  · intro m p sb hget hr
    rw [COW_Mutex.copy_eqM]
    refine ⟨_, COW_Unsafe.copy_sharedU hget hr, rfl, rfl, ?_⟩
    show (m.setBuf p { sb with refs := sb.refs + 1 }).get p = _
    exact Mem.get_setBuf_self _ (Mem.get_lt_length hget)
  · intro m p g hget hr
    refine ⟨_, COW_AtomicInt2.copy_sharedA2 hget hr, rfl, rfl, ?_⟩
    show (m.setBuf p { g with hdr := { g.hdr with refs := g.hdr.refs + 1 } }).get p = _
    exact Mem2.get2_setBuf_self _ (Mem2.get2_lt_length hget)

theorem cow_cheap_copy_witness :
    ∃ m', COW_Unsafe.stringCopy exShared 0 = some (0, m') ∧ m'.nAllocs = 0 ∧
      m'.nCopies = 0 + 1 ∧
      m'.get 0 = some { buf := [some 'X', none, none, none], len := 4, used := 1, refs := 2 } :=
  cow_cheap_copy.1 exShared 0
    { buf := [some 'X', none, none, none], len := 4, used := 1, refs := 1 }
    (by decide) (by decide)

/-- Claim C10: for every variant whose code is in this repository, operator[]
performs no bounds validation against the occupied length: under an unshared
handle, for every offset n inside the allocation — including n at or past
Length() — it returns the raw cell at offset n (an indeterminate cell when the
slot was never written), and never signals; its definition never consults
used. -/
theorem opIndex_no_bounds_check :
    (∀ (s : Plain.String) (n : Nat), s.buf_.length = s.len_ → n < s.len_ →
      Plain.opIndexRead s n = some (s.buf_.getD n none)) ∧
    (∀ (s : Plain_FastAlloc.String) (n : Nat), s.buf_.length = s.len_ → n < s.len_ →
      Plain_FastAlloc.opIndexRead s n = some (s.buf_.getD n none)) ∧
    (∀ (m : Mem) (p : Nat) (sb : StringBuf) (n : Nat), m.get p = some sb →
      sb.buf.length = sb.len → sb.refs ≤ 1 → n < sb.len →
      COW_Unsafe.opIndexRead m p n
        = some (p, m.setBuf p { sb with refs := -1 }, sb.buf.getD n none)) ∧
    (∀ (m : Mem) (p : Nat) (sb : StringBuf) (n : Nat), m.get p = some sb →
      sb.buf.length = sb.len → sb.refs ≤ 1 → n < sb.len →
      COW_AtomicInt.opIndexRead m p n
        = some (p, m.setBuf p { sb with refs := -1 }, sb.buf.getD n none)) ∧
    (∀ (m : Mem) (p : Nat) (sb : StringBuf) (n : Nat), m.get p = some sb →
      sb.buf.length = sb.len → sb.refs ≤ 1 → n < sb.len →
      COW_CritSec.opIndexRead m p n
        = some (p, m.setBuf p { sb with refs := -1 }, sb.buf.getD n none)) ∧
    (∀ (m : Mem) (p : Nat) (sb : StringBuf) (n : Nat), m.get p = some sb →
      sb.buf.length = sb.len → sb.refs ≤ 1 → n < sb.len →
      COW_Mutex.opIndexRead m p n
        = some (p, m.setBuf p { sb with refs := -1 }, sb.buf.getD n none)) ∧
    (∀ (m : Mem2) (p : Nat) (g : Glom) (n : Nat), m.get p = some g →
      g.data.length = g.hdr.len → g.hdr.refs ≤ 1 → n < g.hdr.len →
      COW_AtomicInt2.opIndexRead m p n
        = some (p, m.setBuf p { g with hdr := { g.hdr with refs := -1 } },
            g.data.getD n none)) := by
  refine ⟨?_, ?_, ?_, ?_, ?_, ?_, ?_⟩
  · intro s n hwf hn
    unfold Plain.opIndexRead
    rw [if_pos (by omega)]
  · intro s n hwf hn
    unfold Plain_FastAlloc.opIndexRead
    rw [if_pos (by omega)]
  · intro m p sb n hget hwf hr hn
    exact opIndexRead_unshared COW_Unsafe.euUnsharedLeU hget hwf hr hn
  · intro m p sb n hget hwf hr hn
    exact opIndexRead_unshared COW_AtomicInt.euUnsharedLeA hget hwf hr hn
  · intro m p sb n hget hwf hr hn
    rw [COW_CritSec.read_eqC]
    exact opIndexRead_unshared COW_Unsafe.euUnsharedLeU hget hwf hr hn
  · intro m p sb n hget hwf hr hn
    rw [COW_Mutex.read_eqM]
    exact opIndexRead_unshared COW_Unsafe.euUnsharedLeU hget hwf hr hn
  · intro m p g n hget hwf hr hn
    exact opIndexRead2_unshared hget hr hwf hn

theorem opIndex_no_bounds_check_witness :
    COW_Unsafe.opIndexRead exShared 0 2
      = some (0,
          exShared.setBuf 0 { buf := [some 'X', none, none, none], len := 4, used := 1, refs := -1 },
          none) :=
  opIndex_no_bounds_check.2.2.1 exShared 0
    { buf := [some 'X', none, none, none], len := 4, used := 1, refs := 1 } 2
    (by decide) (by decide) (by decide) (by decide)

/-- Claim C8: FastArena::Allocate(n) throws bad_alloc (modelled as none) if
and only if n exceeds the configured per-block capacity or every block is
already in use; on success it returns the payload pointer of the first free
block and marks that block in use (marker 0 becomes 1). -/
theorem fastArena_allocate_spec :
    (∀ (fa : FastArena) (n : Nat),
      FastArena.Allocate fa n = none ↔ (fa.chunk < n ∨ ∀ v ∈ fa.marks, v ≠ 0)) ∧
    (∀ (fa : FastArena) (n : Nat) (addr : Nat) (fa' : FastArena),
      FastArena.Allocate fa n = some (addr, fa') →
      ∃ i, fa.marks.get? i = some 0 ∧ addr = i * (fa.chunk + 4) + 4 ∧
        fa'.marks = fa.marks.set i 1 ∧ fa'.chunk = fa.chunk) := by
  constructor
  · intro fa n
    rw [FastArena.Allocate]
    by_cases hn : n > fa.chunk
    · simp [hn]
    · rw [if_neg hn]
      cases hs : FastArena.scanFree fa.marks with
      | none =>
        have hall := (scanFree_eq_none_iff fa.marks).mp hs
        constructor
        · intro _
          exact Or.inr hall
        · intro _
          trivial
      | some i =>
        constructor
        · intro h
          cases h
        · intro h
          cases h with
          | inl h1 => omega
          | inr h2 =>
            have hg := scanFree_get hs
            exact absurd rfl (h2 0 (List.get?_mem hg))
  · intro fa n addr fa' h
    rw [FastArena.Allocate] at h
    by_cases hn : n > fa.chunk
    · rw [if_pos hn] at h
      cases h
    · rw [if_neg hn] at h
      cases hs : FastArena.scanFree fa.marks with
      | none =>
        rw [hs] at h
        cases h
      | some i =>
        rw [hs] at h
        cases h
        have hg := scanFree_get hs
        refine ⟨i, hg, rfl, ?_, rfl⟩
        have hg' : fa.marks[i]? = some 0 := by
          rw [← List.get?_eq_getElem?]
          exact hg
        have hgd : fa.marks.getD i 0 = 0 := by
          rw [List.getD_eq_getElem?_getD, hg']
          rfl
        rw [hgd]
        rfl

/-- Claim C9: FastArena::Deallocate(p) is a no-op on a null pointer; a
non-null pointer throws bad_alloc (none) exactly when it lies outside the
arena's byte range as the code checks it (p < buf_ or p > buf_ + total), and
a valid in-use block pointer is marked free (its marker drops from 1 to 0)
without signalling. -/
theorem fastArena_deallocate_spec :
    (∀ fa : FastArena, FastArena.Deallocate fa none = some fa) ∧
    (∀ (fa : FastArena) (a : Int),
      FastArena.Deallocate fa (some a) = none ↔
        (a < 0 ∨ ((fa.chunk : Int) + 4) * FastArena.size < a)) ∧
    (∀ (fa : FastArena) (i : Nat), 0 < fa.chunk → i < FastArena.size →
      fa.marks.getD i 0 = 1 →
      FastArena.Deallocate fa (some ((i : Int) * ((fa.chunk : Int) + 4) + 4))
        = some { fa with marks := fa.marks.set i 0 }) := by
  refine ⟨fun fa => rfl, ?_, ?_⟩
  · intro fa a
    rw [FastArena.Deallocate]
    by_cases hc : a < 0 ∨ ((fa.chunk : Int) + 4) * FastArena.size < a
    · rw [if_pos hc]
      simp [hc]
    · rw [if_neg hc]
      simp [hc]
  · intro fa i hchunk hi hmark
    have hi99 : (i : Int) ≤ FastArena.size - 1 := by
      have : (i : Int) < FastArena.size := by exact_mod_cast hi
      omega
    have hs5 : (5 : Int) ≤ (fa.chunk : Int) + 4 := by
      have : (1 : Int) ≤ (fa.chunk : Int) := by exact_mod_cast hchunk
      omega
    have hprod0 : (0 : Int) ≤ (i : Int) * ((fa.chunk : Int) + 4) :=
      mul_nonneg (by positivity) (by omega)
    have hprodle : (i : Int) * ((fa.chunk : Int) + 4)
        ≤ ((FastArena.size : Int) - 1) * ((fa.chunk : Int) + 4) :=
      mul_le_mul_of_nonneg_right hi99 (by omega)
    have hbound : ¬ ((i : Int) * ((fa.chunk : Int) + 4) + 4 < 0 ∨
        ((fa.chunk : Int) + 4) * FastArena.size
          < (i : Int) * ((fa.chunk : Int) + 4) + 4) := by
      push_neg
      constructor
      · omega
      · have hexp : ((FastArena.size : Int) - 1) * ((fa.chunk : Int) + 4)
            = (FastArena.size : Int) * ((fa.chunk : Int) + 4) - ((fa.chunk : Int) + 4) := by
          ring
        have hcomm : ((fa.chunk : Int) + 4) * (FastArena.size : Int)
            = (FastArena.size : Int) * ((fa.chunk : Int) + 4) := by ring
        rw [hcomm]
        omega
    rw [FastArena.Deallocate, if_neg hbound]
    have harg : (i : Int) * ((fa.chunk : Int) + 4) + 4 - 4
        = (i : Int) * ((fa.chunk : Int) + 4) := by ring
    rw [harg, FastArena.decLongAt]
    have hmod : (i : Int) * ((fa.chunk : Int) + 4) % ((fa.chunk : Int) + 4) = 0 :=
      Int.mul_emod_left _ _
    have hlt : (i : Int) * ((fa.chunk : Int) + 4)
        < ((fa.chunk : Int) + 4) * FastArena.size := by
      have hexp : ((FastArena.size : Int) - 1) * ((fa.chunk : Int) + 4)
          = (FastArena.size : Int) * ((fa.chunk : Int) + 4) - ((fa.chunk : Int) + 4) := by
        ring
      have hcomm : ((fa.chunk : Int) + 4) * (FastArena.size : Int)
          = (FastArena.size : Int) * ((fa.chunk : Int) + 4) := by ring
      rw [hcomm]
      omega
    rw [if_pos ⟨hmod, hprod0, hlt⟩]
    have hdiv : ((i : Int) * ((fa.chunk : Int) + 4) / ((fa.chunk : Int) + 4)).toNat = i := by
      rw [mul_comm, Int.mul_ediv_cancel_left _ (by omega : ((fa.chunk : Int) + 4) ≠ 0)]
      exact Int.toNat_ofNat i
    have hmark' : (fa.marks[i]?).getD 0 = 1 := by
      rw [← List.getD_eq_getElem?_getD]
      exact hmark
    simp [hdiv, hmark']

theorem fastArena_allocate_spec_witness :
    ∃ i, exArena.marks.get? i = some 0 ∧ 4 = i * (exArena.chunk + 4) + 4 ∧
      ((List.replicate FastArena.size (0 : Int)).set 0 1) = exArena.marks.set i 1 ∧
      exArena.chunk = exArena.chunk :=
  fastArena_allocate_spec.2 exArena 5 4
    { chunk := 8, marks := (List.replicate FastArena.size (0 : Int)).set 0 1 }
    (by decide)

theorem fastArena_deallocate_spec_witness :
    FastArena.Deallocate exArena1 (some ((0 : Int) * ((exArena1.chunk : Int) + 4) + 4))
      = some { exArena1 with marks := exArena1.marks.set 0 0 } :=
  fastArena_deallocate_spec.2.2 exArena1 0 (by decide) (by decide) (by decide)

/-- Claim C4: for every COW variant, when a buffer is shared (refcount > 1,
i.e. at least two String handles own it) and one handle mutates through
Append or through a write via operator[], the buffer the other handles still
reference keeps its content: its character cells and occupied length are
unchanged (only its refcount drops by one), so the other handle's Length and
every read below it are unaffected. -/
theorem cow_isolation :
    (∀ (m : Mem) (p : Nat) (sb : StringBuf) (c : Char), m.get p = some sb → 1 < sb.refs →
      ∃ q m', COW_Unsafe.Append m p c = some (q, m') ∧ p ≠ q ∧
        ∃ sb', m'.get p = some sb' ∧ sb'.buf = sb.buf ∧ sb'.used = sb.used) ∧
    (∀ (m : Mem) (p : Nat) (sb : StringBuf) (n : Nat) (c : Char), m.get p = some sb →
      1 < sb.refs → n < sb.len →
      ∃ q m', COW_Unsafe.opIndexWrite m p n c = some (q, m') ∧ p ≠ q ∧
        ∃ sb', m'.get p = some sb' ∧ sb'.buf = sb.buf ∧ sb'.used = sb.used) ∧
    (∀ (m : Mem) (p : Nat) (sb : StringBuf) (c : Char), m.get p = some sb → 1 < sb.refs →
      ∃ q m', COW_AtomicInt.Append m p c = some (q, m') ∧ p ≠ q ∧
        ∃ sb', m'.get p = some sb' ∧ sb'.buf = sb.buf ∧ sb'.used = sb.used) ∧
    (∀ (m : Mem) (p : Nat) (sb : StringBuf) (n : Nat) (c : Char), m.get p = some sb →
      1 < sb.refs → n < sb.len →
      ∃ q m', COW_AtomicInt.opIndexWrite m p n c = some (q, m') ∧ p ≠ q ∧
        ∃ sb', m'.get p = some sb' ∧ sb'.buf = sb.buf ∧ sb'.used = sb.used) ∧
    (∀ (m : Mem) (p : Nat) (sb : StringBuf) (c : Char), m.get p = some sb → 1 < sb.refs →
      ∃ q m', COW_CritSec.Append m p c = some (q, m') ∧ p ≠ q ∧
        ∃ sb', m'.get p = some sb' ∧ sb'.buf = sb.buf ∧ sb'.used = sb.used) ∧
    (∀ (m : Mem) (p : Nat) (sb : StringBuf) (n : Nat) (c : Char), m.get p = some sb →
      1 < sb.refs → n < sb.len →
      ∃ q m', COW_CritSec.opIndexWrite m p n c = some (q, m') ∧ p ≠ q ∧
        ∃ sb', m'.get p = some sb' ∧ sb'.buf = sb.buf ∧ sb'.used = sb.used) ∧
    (∀ (m : Mem) (p : Nat) (sb : StringBuf) (c : Char), m.get p = some sb → 1 < sb.refs →
      ∃ q m', COW_Mutex.Append m p c = some (q, m') ∧ p ≠ q ∧
        ∃ sb', m'.get p = some sb' ∧ sb'.buf = sb.buf ∧ sb'.used = sb.used) ∧
    (∀ (m : Mem) (p : Nat) (sb : StringBuf) (n : Nat) (c : Char), m.get p = some sb →
      1 < sb.refs → n < sb.len →
      ∃ q m', COW_Mutex.opIndexWrite m p n c = some (q, m') ∧ p ≠ q ∧
        ∃ sb', m'.get p = some sb' ∧ sb'.buf = sb.buf ∧ sb'.used = sb.used) ∧
    (∀ (m : Mem2) (p : Nat) (g : Glom) (c : Char), m.get p = some g → 1 < g.hdr.refs →
      ∃ q m', COW_AtomicInt2.Append m p c = some (q, m') ∧ p ≠ q ∧
        ∃ g', m'.get p = some g' ∧ g'.data = g.data ∧ g'.hdr.used = g.hdr.used) ∧
    (∀ (m : Mem2) (p : Nat) (g : Glom) (n : Nat) (c : Char), m.get p = some g →
      1 < g.hdr.refs → n < g.hdr.len → g.data.length = g.hdr.len →
      g.hdr.used ≤ g.hdr.len →
      ∃ q m', COW_AtomicInt2.opIndexWrite m p n c = some (q, m') ∧ p ≠ q ∧
        ∃ g', m'.get p = some g' ∧ g'.data = g.data ∧ g'.hdr.used = g.hdr.used) := by
  refine ⟨?_, ?_, ?_, ?_, ?_, ?_, ?_, ?_, ?_, ?_⟩
  · intro m p sb c hget hr
    obtain ⟨q, m', happ, hne, hgp⟩ := COW_Unsafe.append_sharedU hget hr c
    exact ⟨q, m', happ, hne, _, hgp, rfl, rfl⟩
  · intro m p sb n c hget hr hn
    obtain ⟨q, m', happ, hne, hgp⟩ := COW_Unsafe.write_sharedU hget hr hn c
    exact ⟨q, m', happ, hne, _, hgp, rfl, rfl⟩
  · intro m p sb c hget hr
    obtain ⟨q, m', happ, hne, hgp⟩ := COW_AtomicInt.append_sharedA hget hr c
    exact ⟨q, m', happ, hne, _, hgp, rfl, rfl⟩
  · intro m p sb n c hget hr hn
    obtain ⟨q, m', happ, hne, hgp⟩ := COW_AtomicInt.write_sharedA hget hr hn c
    exact ⟨q, m', happ, hne, _, hgp, rfl, rfl⟩
  · intro m p sb c hget hr
    rw [COW_CritSec.append_eqC]
    obtain ⟨q, m', happ, hne, hgp⟩ := COW_Unsafe.append_sharedU hget hr c
    exact ⟨q, m', happ, hne, _, hgp, rfl, rfl⟩
  · intro m p sb n c hget hr hn
    rw [COW_CritSec.write_eqC]
    obtain ⟨q, m', happ, hne, hgp⟩ := COW_Unsafe.write_sharedU hget hr hn c
    exact ⟨q, m', happ, hne, _, hgp, rfl, rfl⟩
  · intro m p sb c hget hr
    rw [COW_Mutex.append_eqM]
    obtain ⟨q, m', happ, hne, hgp⟩ := COW_Unsafe.append_sharedU hget hr c
    exact ⟨q, m', happ, hne, _, hgp, rfl, rfl⟩
  · intro m p sb n c hget hr hn
    rw [COW_Mutex.write_eqM]
    obtain ⟨q, m', happ, hne, hgp⟩ := COW_Unsafe.write_sharedU hget hr hn c
    exact ⟨q, m', happ, hne, _, hgp, rfl, rfl⟩
  · intro m p g c hget hr
    obtain ⟨q, m', happ, hne, hgp⟩ := COW_AtomicInt2.append_sharedA2 hget hr c
    exact ⟨q, m', happ, hne, _, hgp, rfl, rfl⟩
  · intro m p g n c hget hr hn hdl hul
    obtain ⟨q, m', happ, hne, hgp⟩ := COW_AtomicInt2.write_sharedA2 hget hr hn hdl hul c
    exact ⟨q, m', happ, hne, _, hgp, rfl, rfl⟩

theorem cow_isolation_witness :
    ∃ q m', COW_Unsafe.Append exShared2 0 'a' = some (q, m') ∧ 0 ≠ q ∧
      ∃ sb', m'.get 0 = some sb' ∧ sb'.buf = [some 'X', none, none, none] ∧ sb'.used = 1 :=
  cow_isolation.1 exShared2 0
    { buf := [some 'X', none, none, none], len := 4, used := 1, refs := 2 } 'a'
    (by decide) (by decide)

/-- Claim C3 counterexample: unshareability does NOT persist across an
intervening Append.  Run on COW_Unsafe: build "X"; s[0] makes the buffer
unshareable; s.Append('a') is an intervening operation that is neither a full
Clear nor a reconstruction, yet the subsequent copy construction attaches to
the very same buffer (pointer 0, refcount bumped to 2, heap still one buffer,
nAllocs unchanged at 1) — a cheap refcount share, not a deep clone.  The
in-place branch of EnsureUnique resets refs to 1 ("shareable again"). -/
theorem unshareable_not_persistent_cex :
    COW_Unsafe.c3run = some (0, 0,
      { heap := [some { buf := [some 'X', some 'a', none, none], len := 4, used := 2, refs := 2 }],
        nAllocs := 1, nCopies := 1 }) ∧
    (COW_Unsafe.c3run.map fun r => r.2.2.heap.length) = some 1 := by
  constructor
  · decide
  · decide

/-- Claim C3 (amended): for every COW variant, EnsureUnshareable leaves the
buffer's refcount at the -1 sentinel; while the refcount is negative every
copy construction performs a full deep clone onto a fresh buffer (never a
cheap share) and leaves the source buffer's state (its negative refcount
included) untouched; a further indexed access re-establishes the sentinel.
But the sentinel persists only until an operation re-establishes exclusive
ownership: Append (through EnsureUnique's in-place branch) and Clear both
reset the refcount to 1, re-enabling cheap copies — not just a full
Clear/reconstruction. -/
theorem unshareable_until_reset :
    (∀ (m : Mem) (p n q : Nat) (m1 : Mem),
      COW_Unsafe.EnsureUnshareable m p n = some (q, m1) →
        ∃ sb1, m1.get q = some sb1 ∧ sb1.refs = -1) ∧
    (∀ (m : Mem) (p : Nat) (sb : StringBuf), m.get p = some sb → sb.refs < 0 →
      ∃ q m', COW_Unsafe.stringCopy m p = some (q, m') ∧ p ≠ q ∧
        m'.get p = some sb ∧ (∃ sb', m'.get q = some sb' ∧ sb'.refs = 1) ∧
        m'.nCopies = m.nCopies + 1) ∧
    (∀ (m : Mem) (p : Nat) (sb : StringBuf) (n : Nat), m.get p = some sb → sb.refs = -1 →
      sb.buf.length = sb.len → n < sb.len →
      ∃ m' cell, COW_Unsafe.opIndexRead m p n = some (p, m', cell) ∧
        ∃ sb', m'.get p = some sb' ∧ sb'.refs = -1) ∧
    (∀ (m : Mem) (p : Nat) (sb : StringBuf) (c : Char), m.get p = some sb → sb.refs = -1 →
      ∃ m', COW_Unsafe.Append m p c = some (p, m') ∧
        ∃ sb', m'.get p = some sb' ∧ sb'.refs = 1) ∧
    (∀ (m : Mem) (p : Nat) (sb : StringBuf), m.get p = some sb → sb.refs = -1 →
      ∃ q m', COW_Unsafe.Clear m p = some (q, m') ∧
        ∃ sb', m'.get q = some sb' ∧ sb'.refs = 1) ∧
    (∀ (m : Mem) (p n q : Nat) (m1 : Mem),
      COW_AtomicInt.EnsureUnshareable m p n = some (q, m1) →
        ∃ sb1, m1.get q = some sb1 ∧ sb1.refs = -1) ∧
    (∀ (m : Mem) (p : Nat) (sb : StringBuf), m.get p = some sb → sb.refs < 0 →
      ∃ q m', COW_AtomicInt.stringCopy m p = some (q, m') ∧ p ≠ q ∧
        m'.get p = some sb ∧ (∃ sb', m'.get q = some sb' ∧ sb'.refs = 1) ∧
        m'.nCopies = m.nCopies + 1) ∧
    (∀ (m : Mem) (p : Nat) (sb : StringBuf) (n : Nat), m.get p = some sb → sb.refs = -1 →
      sb.buf.length = sb.len → n < sb.len →
      ∃ m' cell, COW_AtomicInt.opIndexRead m p n = some (p, m', cell) ∧
        ∃ sb', m'.get p = some sb' ∧ sb'.refs = -1) ∧
    (∀ (m : Mem) (p : Nat) (sb : StringBuf) (c : Char), m.get p = some sb → sb.refs = -1 →
      ∃ m', COW_AtomicInt.Append m p c = some (p, m') ∧
        ∃ sb', m'.get p = some sb' ∧ sb'.refs = 1) ∧
    (∀ (m : Mem) (p : Nat) (sb : StringBuf), m.get p = some sb → sb.refs = -1 →
      ∃ q m', COW_AtomicInt.Clear m p = some (q, m') ∧
        ∃ sb', m'.get q = some sb' ∧ sb'.refs = 1) ∧
    (∀ (m : Mem) (p n q : Nat) (m1 : Mem),
      COW_CritSec.EnsureUnshareable m p n = some (q, m1) →
        ∃ sb1, m1.get q = some sb1 ∧ sb1.refs = -1) ∧
    (∀ (m : Mem) (p : Nat) (sb : StringBuf), m.get p = some sb → sb.refs < 0 →
      ∃ q m', COW_CritSec.stringCopy m p = some (q, m') ∧ p ≠ q ∧
        m'.get p = some sb ∧ (∃ sb', m'.get q = some sb' ∧ sb'.refs = 1) ∧
        m'.nCopies = m.nCopies + 1) ∧
    (∀ (m : Mem) (p : Nat) (sb : StringBuf) (c : Char), m.get p = some sb → sb.refs = -1 →
      ∃ m', COW_CritSec.Append m p c = some (p, m') ∧
        ∃ sb', m'.get p = some sb' ∧ sb'.refs = 1) ∧
    (∀ (m : Mem) (p n q : Nat) (m1 : Mem),
      COW_Mutex.EnsureUnshareable m p n = some (q, m1) →
        ∃ sb1, m1.get q = some sb1 ∧ sb1.refs = -1) ∧
    (∀ (m : Mem) (p : Nat) (sb : StringBuf), m.get p = some sb → sb.refs < 0 →
      ∃ q m', COW_Mutex.stringCopy m p = some (q, m') ∧ p ≠ q ∧
        m'.get p = some sb ∧ (∃ sb', m'.get q = some sb' ∧ sb'.refs = 1) ∧
        m'.nCopies = m.nCopies + 1) ∧
    (∀ (m : Mem) (p : Nat) (sb : StringBuf) (c : Char), m.get p = some sb → sb.refs = -1 →
      ∃ m', COW_Mutex.Append m p c = some (p, m') ∧
        ∃ sb', m'.get p = some sb' ∧ sb'.refs = 1) ∧
    (∀ (m : Mem2) (p n q : Nat) (m1 : Mem2),
      COW_AtomicInt2.EnsureUnshareable m p n = some (q, m1) →
        ∃ g1, m1.get q = some g1 ∧ g1.hdr.refs = -1) ∧
    (∀ (m : Mem2) (p : Nat) (g : Glom), m.get p = some g → g.hdr.refs < 0 →
      ∃ q m', COW_AtomicInt2.stringCopy m p = some (q, m') ∧ p ≠ q ∧
        m'.get p = some g ∧ (∃ g', m'.get q = some g' ∧ g'.hdr.refs = 1) ∧
        m'.nCopies = m.nCopies + 1) ∧
    (∀ (m : Mem2) (p : Nat) (g : Glom) (c : Char), m.get p = some g → g.hdr.refs = -1 →
      g.data.length = g.hdr.len → g.hdr.used ≤ g.hdr.len →
      ∃ q m', COW_AtomicInt2.Append m p c = some (q, m') ∧
        ∃ g', m'.get q = some g' ∧ g'.hdr.refs = 1) ∧
    (∀ (m : Mem2) (p : Nat) (g : Glom), m.get p = some g → g.hdr.refs = -1 →
      ∃ t m', COW_AtomicInt2.Clear m p = some (t, m') ∧
        ∃ g', m'.get t = some g' ∧ g'.hdr.refs = 1) := by
  refine ⟨?_, ?_, ?_, ?_, ?_, ?_, ?_, ?_, ?_, ?_, ?_, ?_, ?_, ?_, ?_, ?_, ?_, ?_, ?_, ?_⟩
  · intro m p n q m1 h
    exact EnsureUnshareable_sets COW_Unsafe.EnsureUnique h
  · intro m p sb hget hr
    obtain ⟨q, m', hcopy, hne, hgp, hgq, hnc⟩ := COW_Unsafe.copy_unshareableU hget hr
    exact ⟨q, m', hcopy, hne, hgp, ⟨_, hgq, cloneCtor_refs sb 0⟩, hnc⟩
  · intro m p sb n hget hr hwf hn
    refine ⟨_, _, opIndexRead_unshared COW_Unsafe.euUnsharedLeU hget hwf (by omega) hn, ?_⟩
    exact ⟨{ sb with refs := -1 }, Mem.get_setBuf_self _ (Mem.get_lt_length hget), rfl⟩
  · intro m p sb c hget hr
    exact Append_resets COW_Unsafe.euUnsharedLeU hget (by omega) c
  · intro m p sb hget hr
    refine ⟨p, _, COW_Unsafe.clear_resetsU hget (by omega), ?_⟩
    exact ⟨{ sb.Clear with refs := 1 }, Mem.get_setBuf_self _ (Mem.get_lt_length hget), rfl⟩
  · intro m p n q m1 h
    exact EnsureUnshareable_sets COW_AtomicInt.EnsureUnique h
  · intro m p sb hget hr
    obtain ⟨q, m', hcopy, hne, hgp, hgq, hnc⟩ := COW_AtomicInt.copy_unshareableA hget hr
    exact ⟨q, m', hcopy, hne, hgp, ⟨_, hgq, cloneCtor_refs sb 0⟩, hnc⟩
  · intro m p sb n hget hr hwf hn
    refine ⟨_, _, opIndexRead_unshared COW_AtomicInt.euUnsharedLeA hget hwf (by omega) hn, ?_⟩
    exact ⟨{ sb with refs := -1 }, Mem.get_setBuf_self _ (Mem.get_lt_length hget), rfl⟩
  · intro m p sb c hget hr
    exact Append_resets COW_AtomicInt.euUnsharedLeA hget (by omega) c
  · intro m p sb hget hr
    refine ⟨p, _, COW_AtomicInt.clear_resetsA hget (by omega), ?_⟩
    exact ⟨{ sb.Clear with refs := 1 }, Mem.get_setBuf_self _ (Mem.get_lt_length hget), rfl⟩
  · intro m p n q m1 h
    rw [show COW_CritSec.EnsureUnshareable
      = Common.EnsureUnshareable COW_CritSec.EnsureUnique from rfl] at h
    exact EnsureUnshareable_sets COW_CritSec.EnsureUnique h
  · intro m p sb hget hr
    rw [COW_CritSec.copy_eqC]
    obtain ⟨q, m', hcopy, hne, hgp, hgq, hnc⟩ := COW_Unsafe.copy_unshareableU hget hr
    exact ⟨q, m', hcopy, hne, hgp, ⟨_, hgq, cloneCtor_refs sb 0⟩, hnc⟩
  · intro m p sb c hget hr
    rw [COW_CritSec.append_eqC]
    exact Append_resets COW_Unsafe.euUnsharedLeU hget (by omega) c
  · intro m p n q m1 h
    rw [show COW_Mutex.EnsureUnshareable
      = Common.EnsureUnshareable COW_Mutex.EnsureUnique from rfl] at h
    exact EnsureUnshareable_sets COW_Mutex.EnsureUnique h
  · intro m p sb hget hr
    rw [COW_Mutex.copy_eqM]
    obtain ⟨q, m', hcopy, hne, hgp, hgq, hnc⟩ := COW_Unsafe.copy_unshareableU hget hr
    exact ⟨q, m', hcopy, hne, hgp, ⟨_, hgq, cloneCtor_refs sb 0⟩, hnc⟩
  · intro m p sb c hget hr
    rw [COW_Mutex.append_eqM]
    exact Append_resets COW_Unsafe.euUnsharedLeU hget (by omega) c
  · intro m p n q m1 h
    exact EnsureUnshareable2_sets h
  · intro m p g hget hr
    obtain ⟨q, m', hcopy, hne, hgp, hgq, hnc⟩ := COW_AtomicInt2.copy_unshareableA2 hget hr
    exact ⟨q, m', hcopy, hne, hgp, ⟨_, hgq, rfl⟩, hnc⟩
  · intro m p g c hget hr hdl hul
    exact COW_AtomicInt2.append_resetsA2 hget (by omega) hdl hul c
  · intro m p g hget hr
    obtain ⟨t, m', hclear, hgt⟩ := COW_AtomicInt2.clear_resetsA2 hget (by omega)
    exact ⟨t, m', hclear, ⟨_, hgt, rfl⟩⟩

theorem unshareable_until_reset_witness :
    ∃ q m', COW_Unsafe.stringCopy exUnsh 0 = some (q, m') ∧ 0 ≠ q ∧
      m'.get 0 = some { buf := [some 'X', none, none, none], len := 4, used := 1, refs := -1 } ∧
      (∃ sb', m'.get q = some sb' ∧ sb'.refs = 1) ∧ m'.nCopies = exUnsh.nCopies + 1 :=
  unshareable_until_reset.2.1 exUnsh 0
    { buf := [some 'X', none, none, none], len := 4, used := 1, refs := -1 }
    (by decide) (by decide)

/-- Claim C7: for every variant, appending the characters of cs one at a time
to a single fresh String (no sharing) succeeds, yields Length = cs.length,
and indexed reads at positions 0..cs.length-1 return the appended characters
in order — growth through Reserve/Clone never disturbs previously written
bytes.  For Plain_FastAlloc the build threads the fixed-block arena, whose
allocation failure (a fatal bad_alloc, per the error model) is the only way
the build can fail, hence the success hypothesis.  The std::string- and
CStringA-backed variants delegate to external library code and are modelled
from the spec. -/
theorem content_round_trip :
    (∀ cs : List Char, Plain.Length (Plain.build cs) = cs.length ∧
      ∀ (i : Nat) (c : Char), cs.get? i = some c →
        Plain.opIndexRead (Plain.build cs) i = some (some c)) ∧
    (∀ (cs : List Char) (st : FastArena × Plain_FastAlloc.String),
      Plain_FastAlloc.build cs = some st →
      Plain_FastAlloc.Length st.2 = cs.length ∧
      ∀ (i : Nat) (c : Char), cs.get? i = some c →
        Plain_FastAlloc.opIndexRead st.2 i = some (some c)) ∧
    (∀ cs : List Char, ∃ p m, COW_Unsafe.build cs = some (p, m) ∧
      Common.Length m p = some cs.length ∧
      ∀ (i : Nat) (c : Char), cs.get? i = some c →
        ∃ m', COW_Unsafe.opIndexRead m p i = some (p, m', some c)) ∧
    (∀ cs : List Char, ∃ p m, COW_AtomicInt.build cs = some (p, m) ∧
      Common.Length m p = some cs.length ∧
      ∀ (i : Nat) (c : Char), cs.get? i = some c →
        ∃ m', COW_AtomicInt.opIndexRead m p i = some (p, m', some c)) ∧
    (∀ cs : List Char, ∃ p m, COW_CritSec.build cs = some (p, m) ∧
      Common.Length m p = some cs.length ∧
      ∀ (i : Nat) (c : Char), cs.get? i = some c →
        ∃ m', COW_CritSec.opIndexRead m p i = some (p, m', some c)) ∧
    (∀ cs : List Char, ∃ p m, COW_Mutex.build cs = some (p, m) ∧
      Common.Length m p = some cs.length ∧
      ∀ (i : Nat) (c : Char), cs.get? i = some c →
        ∃ m', COW_Mutex.opIndexRead m p i = some (p, m', some c)) ∧
    (∀ cs : List Char, ∃ p m, COW_AtomicInt2.build cs = some (p, m) ∧
      COW_AtomicInt2.Length m p = some cs.length ∧
      ∀ (i : Nat) (c : Char), cs.get? i = some c →
        ∃ m', COW_AtomicInt2.opIndexRead m p i = some (p, m', some c)) ∧
    (∀ cs : List Char, StdString.Length (StdString.build cs) = cs.length ∧
      ∀ (i : Nat) (c : Char), cs.get? i = some c →
        StdString.opIndexRead (StdString.build cs) i = some c) ∧
    (∀ cs : List Char, AtlString.Length (AtlString.build cs) = cs.length ∧
      ∀ (i : Nat) (c : Char), cs.get? i = some c →
        AtlString.opIndexRead (AtlString.build cs) i = some c) := by
  refine ⟨?_, ?_, ?_, ?_, ?_, ?_, ?_, ?_, ?_⟩
  · intro cs
    have hg := Plain_build_good cs
    exact ⟨hg.2.2.1, fun i c hic => PlainGood_read hg hic⟩
  · intro cs st hbuild
    have hg := PF_build_good hbuild
    exact ⟨hg.2.2.1, fun i c hic => PFGood_read hg hic⟩
  · intro cs
    obtain ⟨pm, hbuild, hgood⟩ := build_good COW_Unsafe.euUnsharedLeU cs
    exact ⟨pm.1, pm.2, hbuild, GoodState_length hgood,
      fun i c hic => GoodState_read COW_Unsafe.euUnsharedLeU hgood hic⟩
  · intro cs
    obtain ⟨pm, hbuild, hgood⟩ := build_good COW_AtomicInt.euUnsharedLeA cs
    exact ⟨pm.1, pm.2, hbuild, GoodState_length hgood,
      fun i c hic => GoodState_read COW_AtomicInt.euUnsharedLeA hgood hic⟩
  · intro cs
    obtain ⟨pm, hbuild, hgood⟩ := build_good COW_CritSec.euUnsharedLeC cs
    exact ⟨pm.1, pm.2, hbuild, GoodState_length hgood,
      fun i c hic => GoodState_read COW_CritSec.euUnsharedLeC hgood hic⟩
  · intro cs
    obtain ⟨pm, hbuild, hgood⟩ := build_good COW_Mutex.euUnsharedLeM cs
    exact ⟨pm.1, pm.2, hbuild, GoodState_length hgood,
      fun i c hic => GoodState_read COW_Mutex.euUnsharedLeM hgood hic⟩
  · intro cs
    obtain ⟨pm, hbuild, hgood⟩ := build2_good cs
    exact ⟨pm.1, pm.2, hbuild, GoodState2_length hgood,
      fun i c hic => GoodState2_read hgood hic⟩
  · intro cs
    have hb : (StdString.build cs).s = cs := by simpa using StdString_build_chars cs []
    constructor
    · show (StdString.build cs).s.length = cs.length
      rw [hb]
    · intro i c hic
      show (StdString.build cs).s.get? i = some c
      rw [hb]
      exact hic
  · intro cs
    have hb : (AtlString.build cs).s = cs := by simpa using AtlString_build_chars cs []
    constructor
    · show (AtlString.build cs).s.length = cs.length
      rw [hb]
    · intro i c hic
      show (AtlString.build cs).s.get? i = some c
      rw [hb]
      exact hic

theorem content_round_trip_witness :
    Plain.Length (Plain.build ['a', 'b']) = 2 ∧
    Plain.opIndexRead (Plain.build ['a', 'b']) 1 = some (some 'b') := by
  have h := content_round_trip.1 ['a', 'b']
  exact ⟨h.1, h.2 1 'b' (by decide)⟩

